import Mathlib

/-!
# goservstat: decoder and evaluator of a server-health snapshot

A shallow embedding of `main.go`:

* `parseServerStat` decodes a comma separated payload of seven integers into a
  `serverStat`, with the library functions it calls (`strings.Split`,
  `strconv.Atoi`) modelled next to it;
* `checkServerStat` evaluates four threshold rules and prints one line per rule
  that fires; its `float64` arithmetic is modelled exactly (binary64,
  round to nearest, ties to even) over integers.

Strings that the program reads are lists of bytes (`Fin 256`); texts that the
program prints are Lean strings built from the format strings of the source.
-/

namespace GoServStat

/-! ## Bytes and decimal digits -/

/-- A Go `byte`: arithmetic on it wraps modulo 256. -/
abbrev Byte := Fin 256

/-- Decimal digits of `n`, least significant first, produced with `fuel` steps. -/
def digitsRev : Nat → Nat → List Nat
  | 0, _ => []
  | fuel + 1, n => if n < 10 then [n] else (n % 10) :: digitsRev fuel (n / 10)

/-- Decimal digits of `n`, most significant first (`0` gives `[0]`). -/
def decDigits (n : Nat) : List Nat := (digitsRev (n + 1) n).reverse

/-- The ASCII byte of the decimal digit `d`. -/
def digitByte (d : Nat) : Byte := Fin.ofNat (48 + d)

/-- The ASCII character of the decimal digit `d`. -/
def digitChar (d : Nat) : Char := Char.ofNat (48 + d)

/-- Base-10 rendering of an integer as bytes: an optional `-` and the digits. -/
def renderInt (v : Int) : List Byte :=
  if v < 0 then (45 : Byte) :: (decDigits v.natAbs).map digitByte
  else (decDigits v.natAbs).map digitByte

/-- What the verb `%d` prints for an integer. -/
def fmtInt (v : Int) : String :=
  if v < 0 then String.mk ('-' :: (decDigits v.natAbs).map digitChar)
  else String.mk ((decDigits v.natAbs).map digitChar)

/-- The bytes of an ASCII text. -/
def bytesOf (s : String) : List Byte := s.data.map (fun c => Fin.ofNat c.toNat)

/-! ## Machine integers -/

/-- Smallest `int` (64 bit). -/
def minInt : Int := -(2 ^ 63)

/-- Largest `int` (64 bit). -/
def maxInt : Int := 2 ^ 63 - 1

/-- The value fits the type `int`. -/
def InInt (v : Int) : Prop := minInt ≤ v ∧ v ≤ maxInt

instance (v : Int) : Decidable (InInt v) := by unfold InInt; infer_instance

/-- Two's complement wrap-around of a mathematical integer into `int`. -/
def wrap64 (v : Int) : Int := (v + 2 ^ 63) % 2 ^ 64 - 2 ^ 63

/-! ## The snapshot -/

/-- The record `serverStat` of the source. -/
structure serverStat where
  CurrentLA : Int
  MemBytesAvailable : Int
  MemBytesUsed : Int
  DiskBytesAvailable : Int
  DiskBytesUsed : Int
  NetBandwidthAvailable : Int
  NetBandwidthUsed : Int
deriving DecidableEq, Repr

/-- The zero value `serverStat{}`. -/
def serverStat.zero : serverStat := ⟨0, 0, 0, 0, 0, 0, 0⟩

/-! ## `strings.Split` -/

/-- `strings.Split(s, sep)` for a separator of one byte: the pieces of `s`
between consecutive separators; never empty (`""` gives `[""]`). -/
def Split : List Byte → Byte → List (List Byte)
  | [], _ => [[]]
  | c :: cs, sep =>
    if c = sep then [] :: Split cs sep
    else
      match Split cs sep with
      | [] => [[c]]
      | p :: ps => (c :: p) :: ps

/-! ## `strconv.Atoi` -/

/-- The two sentinel errors of `strconv`. -/
inductive ErrKind
  | ErrSyntax
  | ErrRange
deriving DecidableEq, Repr

/-- The error `*strconv.NumError`. -/
structure NumError where
  Func : String
  Num : List Byte
  Err : ErrKind
deriving DecidableEq, Repr

/-- `strconv.syntaxError`. -/
def syntaxError (fn : String) (str : List Byte) : NumError := ⟨fn, str, .ErrSyntax⟩

/-- `strconv.rangeError`. -/
def rangeError (fn : String) (str : List Byte) : NumError := ⟨fn, str, .ErrRange⟩

/-- `strconv.lower`: `c | ('x' - 'X')`. -/
def lower (c : Byte) : Byte := c ||| 32

/-- Largest `uint64`. -/
def maxUint64 : Nat := 2 ^ 64 - 1

/-- The digit loop of `strconv.ParseUint(s, 10, 64)`, started with accumulator `n`. -/
def parseUintLoop (s0 : List Byte) : List Byte → Nat → Nat × Option NumError
  | [], n => (n, none)
  | c :: rest, n =>
    if 48 ≤ c ∧ c ≤ 57 then
      let d : Byte := c - 48
      if d ≥ 10 then (0, some (syntaxError "ParseUint" s0))
      else if n ≥ maxUint64 / 10 + 1 then (maxUint64, some (rangeError "ParseUint" s0))
      else
        let n10 := n * 10
        let n1 := (n10 + d.val) % 2 ^ 64
        if n1 < n10 ∨ n1 > maxUint64 then (maxUint64, some (rangeError "ParseUint" s0))
        else parseUintLoop s0 rest n1
    else if 97 ≤ lower c ∧ lower c ≤ 122 then
      let d : Byte := lower c - 97 + 10
      if d ≥ 10 then (0, some (syntaxError "ParseUint" s0))
      else if n ≥ maxUint64 / 10 + 1 then (maxUint64, some (rangeError "ParseUint" s0))
      else
        let n10 := n * 10
        let n1 := (n10 + d.val) % 2 ^ 64
        if n1 < n10 ∨ n1 > maxUint64 then (maxUint64, some (rangeError "ParseUint" s0))
        else parseUintLoop s0 rest n1
    else (0, some (syntaxError "ParseUint" s0))

/-- `strconv.ParseUint(s, 10, 64)`. -/
def ParseUint (s : List Byte) : Nat × Option NumError :=
  if s = [] then (0, some (syntaxError "ParseUint" s))
  else parseUintLoop s s 0

/-- `strconv.ParseInt(s, 10, 0)` on a platform whose `int` has 64 bits. -/
def ParseInt (s : List Byte) : Int × Option NumError :=
  match s with
  | [] => (0, some (syntaxError "ParseInt" s))
  | c :: rest =>
    let neg : Bool := if c = 43 then false else if c = 45 then true else false
    let digits := if c = 43 then rest else if c = 45 then rest else s
    match ParseUint digits with
    | (_, some ⟨_, _, .ErrSyntax⟩) => (0, some (syntaxError "ParseInt" s))
    | (un, _) =>
      let cutoff : Nat := 2 ^ 63
      if !neg ∧ un ≥ cutoff then ((cutoff : Int) - 1, some (rangeError "ParseInt" s))
      else if neg ∧ un > cutoff then (-(cutoff : Int), some (rangeError "ParseInt" s))
      else
        let n := wrap64 un
        (if neg then wrap64 (-n) else n, none)

/-- The digit loop of the fast path of `strconv.Atoi`. -/
def atoiLoop (s0 : List Byte) : List Byte → Int → Int × Option NumError
  | [], n => (n, none)
  | ch :: rest, n =>
    let ch : Byte := ch - 48
    if ch > 9 then (0, some (syntaxError "Atoi" s0))
    else atoiLoop s0 rest (n * 10 + ch.val)

/-- `strconv.Atoi(s)` on a platform whose `int` has 64 bits: a fast path for
texts of 1 to 18 bytes, `ParseInt` otherwise. The value is returned next to
the error, as the source stores it before looking at the error. -/
def Atoi (s : List Byte) : Int × Option NumError :=
  match s with
  | [] =>
    match ParseInt s with
    | (i64, some e) => (i64, some { e with Func := "Atoi" })
    | (i64, none) => (i64, none)
  | c :: rest =>
    if s.length < 19 then
      let signed : Bool := c = 45 ∨ c = 43
      if signed ∧ rest.length < 1 then (0, some (syntaxError "Atoi" s))
      else
        match atoiLoop s (if signed then rest else s) 0 with
        | (v, some e) => (v, some e)
        | (n, none) => (if c = 45 then -n else n, none)
    else
      match ParseInt s with
      | (i64, some e) => (i64, some { e with Func := "Atoi" })
      | (i64, none) => (i64, none)

/-! ## `parseServerStat` -/

/-- An error made by `fmt.Errorf` with one verb at the end of the format: the
text of the format before the verb, and the argument. -/
inductive Errorf
  | withInt (text : String) (arg : Int)
  | withErr (text : String) (arg : NumError)
deriving DecidableEq, Repr

/-- The function `parseServerStat` of the source: the snapshot and the error
that it returns (`none` is `nil`). -/
def parseServerStat (input : List Byte) : serverStat × Option Errorf :=
  match Split input 44 with
  | [p0, p1, p2, p3, p4, p5, p6] =>
    let stat := serverStat.zero
    match Atoi p0 with
    | (v, some err) =>
      ({ stat with CurrentLA := v }, some (.withErr "error parsing CurrentLA: " err))
    | (v, none) =>
    let stat := { stat with CurrentLA := v }
    match Atoi p1 with
    | (v, some err) =>
      ({ stat with MemBytesAvailable := v },
        some (.withErr "error parsing MemBytesAvailable: " err))
    | (v, none) =>
    let stat := { stat with MemBytesAvailable := v }
    match Atoi p2 with
    | (v, some err) =>
      ({ stat with MemBytesUsed := v }, some (.withErr "error parsing MemBytesUsed: " err))
    | (v, none) =>
    let stat := { stat with MemBytesUsed := v }
    match Atoi p3 with
    | (v, some err) =>
      ({ stat with DiskBytesAvailable := v },
        some (.withErr "error parsing DiskBytesAvailable: " err))
    | (v, none) =>
    let stat := { stat with DiskBytesAvailable := v }
    match Atoi p4 with
    | (v, some err) =>
      ({ stat with DiskBytesUsed := v }, some (.withErr "error parsing DiskBytesUsed: " err))
    | (v, none) =>
    let stat := { stat with DiskBytesUsed := v }
    match Atoi p5 with
    | (v, some err) =>
      ({ stat with NetBandwidthAvailable := v },
        some (.withErr "error parsing NetBandwidthAvailable: " err))
    | (v, none) =>
    let stat := { stat with NetBandwidthAvailable := v }
    match Atoi p6 with
    | (v, some err) =>
      ({ stat with NetBandwidthUsed := v },
        some (.withErr "error parsing NetBandwidthAvailable: " err))
    | (v, none) =>
    ({ stat with NetBandwidthUsed := v }, none)
  | parts => (serverStat.zero, some (.withInt "expected 7 values, got " parts.length))

/-- Texts joined by single commas. -/
def joinComma : List (List Byte) → List Byte
  | [] => []
  | [p] => p
  | p :: q :: ps => p ++ (44 : Byte) :: joinComma (q :: ps)

/-! ## `float64`

The numbers of type `float64` that the program can form, with the arithmetic of
IEEE 754 binary64 in the default rounding mode (to nearest, ties to even). A
finite number is kept as an integer significand and a binary exponent. The
exponent is not bounded and the sign of a zero is not kept: the program only
forms `float64(i)` for an `int`, the quotient of two such numbers and the
product of that quotient with 100, which neither overflow nor underflow, and
the only zero it divides by is `float64(0)`, a positive zero. -/

/-- A `float64`: `fin m e` is the number `m * 2 ^ e`. -/
inductive F64
  | fin (m : Int) (e : Int)
  | inf (neg : Bool)
  | nan
deriving DecidableEq, Repr

/-- Floor of the binary logarithm, with `fuel` halvings. -/
def log2Fuel : Nat → Nat → Nat
  | 0, _ => 0
  | fuel + 1, n => if n < 2 then 0 else log2Fuel fuel (n / 2) + 1

/-- Floor of the binary logarithm of `n` (`0` for `n = 0`). -/
def ilog2 (n : Nat) : Nat := log2Fuel n n

/-- The integer nearest to `n / d`, a tie going to the even one. -/
def divRoundEven (n d : Nat) : Nat :=
  let q := n / d
  let r := n % d
  if 2 * r < d then q else if 2 * r > d then q + 1 else if q % 2 = 0 then q else q + 1

/-- Floor of the binary logarithm of `n / d`, for positive `n` and `d`. -/
def ratioExp (n d : Nat) : Int :=
  let g : Int := (ilog2 n : Int) - (ilog2 d : Int)
  if d * 2 ^ g.toNat ≤ n * 2 ^ (-g).toNat then g else g - 1

/-- Rounding of the positive rational `n / d` to a significand of 53 bits: the
pair `(m, e)` with `m * 2 ^ e` the binary64 number nearest to `n / d`, ties to
even, and `2 ^ 52 ≤ m ≤ 2 ^ 53`. -/
def roundRatio (n d : Nat) : Nat × Int :=
  let k := ratioExp n d - 52
  (divRoundEven (n * 2 ^ (-k).toNat) (d * 2 ^ k.toNat), k)

/-- The conversion `float64(i)` of an `int`. -/
def F64.ofInt (i : Int) : F64 :=
  if i = 0 then .fin 0 0
  else
    let r := roundRatio i.natAbs 1
    .fin (if i < 0 then -(r.1 : Int) else r.1) r.2

/-- The quotient `x / y` of two `float64`. -/
def F64.div : F64 → F64 → F64
  | .nan, _ => .nan
  | _, .nan => .nan
  | .inf _, .inf _ => .nan
  | .inf s, .fin m _ => .inf (s != decide (m < 0))
  | .fin _ _, .inf _ => .fin 0 0
  | .fin m1 e1, .fin m2 e2 =>
    if m2 = 0 then (if m1 = 0 then .nan else .inf (decide (m1 < 0)))
    else if m1 = 0 then .fin 0 0
    else
      let r := roundRatio m1.natAbs m2.natAbs
      .fin (if decide (m1 < 0) != decide (m2 < 0) then -(r.1 : Int) else r.1) (r.2 + e1 - e2)

/-- The product `x * y` of two `float64`. -/
def F64.mul : F64 → F64 → F64
  | .nan, _ => .nan
  | _, .nan => .nan
  | .inf s, .inf t => .inf (s != t)
  | .inf s, .fin m _ => if m = 0 then .nan else .inf (s != decide (m < 0))
  | .fin m _, .inf t => if m = 0 then .nan else .inf (decide (m < 0) != t)
  | .fin m1 e1, .fin m2 e2 =>
    if m1 * m2 = 0 then .fin 0 0
    else
      let r := roundRatio (m1 * m2).natAbs 1
      .fin (if m1 * m2 < 0 then -(r.1 : Int) else r.1) (r.2 + e1 + e2)

/-- The function `math.Round`: the nearest integer, a half going away from zero;
infinities and NaN are returned as they are. -/
def Round : F64 → F64
  | .fin m e =>
    if 0 ≤ e then .fin m e
    else
      let d : Nat := 2 ^ (-e).toNat
      let q := m.natAbs / d
      let r := m.natAbs % d
      let a : Nat := if d ≤ 2 * r then q + 1 else q
      .fin (if m < 0 then -(a : Int) else a) 0
  | x => x

/-- The conversion `int(f)` of a `float64`: the fraction is discarded. When the
truncated number is not an `int`, or `f` is an infinity or NaN, the result is
implementation-dependent in Go: it is `impl f`. -/
def F64.toInt (impl : F64 → Int) : F64 → Int
  | .fin m e =>
    let t : Int := if 0 ≤ e then m * 2 ^ e.toNat else Int.tdiv m (2 ^ (-e).toNat)
    if InInt t then t else impl (.fin m e)
  | x => impl x

/-- What the conversion of a `float64` that is not an `int` gives on amd64: the
instruction `CVTTSD2SQ` returns the smallest `int`. -/
def implAmd64 : F64 → Int := fun _ => minInt

/-! ## `checkServerStat` -/

/-- The constant `unitB`. -/
def unitB : Int := 1

/-- The constant `unitKb`. -/
def unitKb : Int := unitB * 1024

/-- The constant `unitMb`. -/
def unitMb : Int := unitKb * 1024

/-- The constant `unitBps`; the untyped constant `1.0` is an `int` where the
program divides an `int` by it. -/
def unitBps : Int := 1

/-- The constant `unitKbps`. -/
def unitKbps : Int := unitBps * 1000

/-- The constant `unitMbps`. -/
def unitMbps : Int := unitKbps * 1000

/-- The expression `int(math.Round(float64(used) / float64(available) * 100))`. -/
def usagePercent (impl : F64 → Int) (used available : Int) : Int :=
  F64.toInt impl (Round (F64.mul (F64.div (F64.ofInt used) (F64.ofInt available))
    (F64.ofInt 100)))

/-- The function `checkServerStat` of the source: the texts that its calls of
`fmt.Printf` write to the standard output, in the order of the calls. -/
def checkServerStat (impl : F64 → Int) (stat : serverStat) : List String :=
  let out : List String := []
  let out :=
    if stat.CurrentLA > 30 then
      out ++ ["Load Average is too high: " ++ fmtInt stat.CurrentLA ++ "\n"]
    else out
  let memUsagePercent := usagePercent impl stat.MemBytesUsed stat.MemBytesAvailable
  let out :=
    if memUsagePercent > 80 then
      out ++ ["Memory usage is too high: " ++ fmtInt memUsagePercent ++ "% \n"]
    else out
  let diskUsagePercent := usagePercent impl stat.DiskBytesUsed stat.DiskBytesAvailable
  let out :=
    if diskUsagePercent > 90 then
      out ++ ["Free disk space is too low: " ++
        fmtInt (Int.tdiv (wrap64 (stat.DiskBytesAvailable - stat.DiskBytesUsed)) unitMb) ++
        " Mb left\n"]
    else out
  let netUsagePercent := usagePercent impl stat.NetBandwidthUsed stat.NetBandwidthAvailable
  let out :=
    if netUsagePercent > 90 then
      out ++ ["Network bandwidth usage high: " ++
        fmtInt (Int.tdiv (wrap64 (stat.NetBandwidthAvailable - stat.NetBandwidthUsed))
          unitMbps) ++
        " Mbit/s available\n"]
    else out
  out

/-! ## Notions that the statements use -/

/-- The percentage as the spec words it: the exact fraction
`used / available * 100`, rounded to the nearest integer, a half going away
from zero. -/
def exactPercent (used available : Int) : Int :=
  let q : Nat := (2 * (used * 100).natAbs + available.natAbs) / (2 * available.natAbs)
  if decide (used < 0) != decide (available < 0) then -(q : Int) else q

/-- The text `w` starts with the text `p`. -/
def startsWith (p w : String) : Bool := p.data.isPrefixOf w.data

/-- The significand and the exponent of `float64(u) / float64(a) * 100` for
positive `u` and `a`. -/
def pctBits (u a : Nat) : Nat × Int :=
  let ru := roundRatio u 1
  let ra := roundRatio a 1
  let rq := roundRatio ru.1 ra.1
  let rp := roundRatio (rq.1 * 7036874417766400) 1
  (rp.1, rp.2 + (rq.2 + ru.2 - ra.2) + (-46))

/-- The name that the error of `parseServerStat` carries for a bad field `k`: the
sixth and the seventh field share the name NetBandwidthAvailable. -/
def fieldLabel (k : Nat) : String :=
  match k with
  | 0 => "error parsing CurrentLA: "
  | 1 => "error parsing MemBytesAvailable: "
  | 2 => "error parsing MemBytesUsed: "
  | 3 => "error parsing DiskBytesAvailable: "
  | 4 => "error parsing DiskBytesUsed: "
  | _ => "error parsing NetBandwidthAvailable: "

/-! ## `checkServerStat` as a run of the program -/

/-- The quotient `x / y` of two `int` at run time: a division by zero panics
(`none`); otherwise the quotient is truncated toward zero and wrapped to 64
bits. -/
def intQuo (x y : Int) : Option Int :=
  if y = 0 then none else some (wrap64 (Int.tdiv x y))

/-- The function `checkServerStat` of the source, run statement by statement on
the standard output `stdout` of the program: `none` is a run-time panic;
otherwise the standard output after the call and the snapshot of the caller,
which the function receives by value and never assigns. -/
def checkServerStatRun (impl : F64 → Int) (stat : serverStat) (stdout : List String) :
    Option (List String × serverStat) := do
  let stdout :=
    if stat.CurrentLA > 30 then
      stdout ++ ["Load Average is too high: " ++ fmtInt stat.CurrentLA ++ "\n"]
    else stdout
  let memUsagePercent := usagePercent impl stat.MemBytesUsed stat.MemBytesAvailable
  let stdout :=
    if memUsagePercent > 80 then
      stdout ++ ["Memory usage is too high: " ++ fmtInt memUsagePercent ++ "% \n"]
    else stdout
  let diskUsagePercent := usagePercent impl stat.DiskBytesUsed stat.DiskBytesAvailable
  let stdout ←
    if diskUsagePercent > 90 then do
      let free ← intQuo (wrap64 (stat.DiskBytesAvailable - stat.DiskBytesUsed)) unitMb
      pure (stdout ++ ["Free disk space is too low: " ++ fmtInt free ++ " Mb left\n"])
    else pure stdout
  let netUsagePercent := usagePercent impl stat.NetBandwidthUsed stat.NetBandwidthAvailable
  let stdout ←
    if netUsagePercent > 90 then do
      let free ← intQuo (wrap64 (stat.NetBandwidthAvailable - stat.NetBandwidthUsed)) unitMbps
      pure (stdout ++ ["Network bandwidth usage high: " ++ fmtInt free ++ " Mbit/s available\n"])
    else pure stdout
  pure (stdout, stat)

/-! ## The texts that the decoder accepts -/

/-- The byte is an ASCII decimal digit. -/
def isDigit (c : Byte) : Prop := 48 ≤ c ∧ c ≤ 57

instance (c : Byte) : Decidable (isDigit c) := by unfold isDigit; infer_instance

/-- The number that a text of decimal digits denotes, continuing from `acc`. -/
def digitsValue (ds : List Byte) (acc : Nat) : Nat :=
  ds.foldl (fun a c => a * 10 + (c.val - 48)) acc

/-- The acceptance condition of a field as the spec words it: an optional single
`+` or `-`, then one or more ASCII decimal digits, with a value of the 64-bit
signed range, between `-2 ^ 63` and `2 ^ 63 - 1`. -/
def validIntText (s : List Byte) : Prop :=
  match s with
  | [] => False
  | c :: rest =>
    if c = 45 then rest ≠ [] ∧ (∀ d ∈ rest, isDigit d) ∧ digitsValue rest 0 ≤ 2 ^ 63
    else if c = 43 then rest ≠ [] ∧ (∀ d ∈ rest, isDigit d) ∧ digitsValue rest 0 ≤ 2 ^ 63 - 1
    else (∀ d ∈ s, isDigit d) ∧ digitsValue s 0 ≤ 2 ^ 63 - 1

instance (s : List Byte) : Decidable (validIntText s) := by
  unfold validIntText
  split
  · infer_instance
  · infer_instance

/-! ## Facts about decimal digits -/

/-- Value of a list of digits, most significant first, continuing from `acc`. -/
def decVal (ds : List Nat) (acc : Nat) : Nat := ds.foldl (fun a d => a * 10 + d) acc

theorem digitsRev_lt (fuel n : Nat) : ∀ d ∈ digitsRev fuel n, d < 10 := by
  induction fuel generalizing n with
  | zero => simp [digitsRev]
  | succ f ih =>
    intro d hd
    unfold digitsRev at hd
    split at hd
    · simp at hd; omega
    · rcases List.mem_cons.mp hd with h | h
      · omega
      · exact ih _ d h

theorem digitsRev_ne_nil (fuel n : Nat) : digitsRev (fuel + 1) n ≠ [] := by
  unfold digitsRev; split <;> simp

theorem digitsRev_val (fuel n : Nat) (h : n < fuel) :
    (digitsRev fuel n).foldr (fun d a => a * 10 + d) 0 = n := by
  induction fuel generalizing n with
  | zero => omega
  | succ f ih =>
    unfold digitsRev
    split
    · simp
    · have h2 : n / 10 < f := by omega
      simp only [List.foldr_cons, ih _ h2]
      omega

theorem decDigits_lt (n : Nat) : ∀ d ∈ decDigits n, d < 10 := by
  intro d hd
  exact digitsRev_lt _ _ d (List.mem_reverse.mp hd)

theorem decDigits_ne_nil (n : Nat) : decDigits n ≠ [] := by
  unfold decDigits
  simpa using digitsRev_ne_nil n n

theorem decVal_decDigits (n : Nat) : decVal (decDigits n) 0 = n := by
  unfold decVal decDigits
  rw [List.foldl_reverse]
  exact digitsRev_val (n + 1) n (Nat.lt_succ_self n)

theorem le_decVal (ds : List Nat) (acc : Nat) : acc ≤ decVal ds acc := by
  induction ds generalizing acc with
  | nil => simp [decVal]
  | cons d ds ih =>
    have := ih (acc * 10 + d)
    simp only [decVal, List.foldl_cons] at this ⊢
    omega

/-- What the source's byte tests see on the byte of a decimal digit. -/
theorem digitByte_facts : ∀ d, d < 10 →
    ((digitByte d - 48 : Byte).val = d ∧ ¬ ((digitByte d - 48 : Byte) > 9) ∧
      ¬ ((digitByte d - 48 : Byte) ≥ 10) ∧
      (48 : Byte) ≤ digitByte d ∧ digitByte d ≤ (57 : Byte) ∧
      digitByte d ≠ 44 ∧ digitByte d ≠ 45 ∧ digitByte d ≠ 43) := by
  decide

/-! ## `strconv.Atoi` reads back a rendered integer -/

theorem atoiLoop_digits (s0 : List Byte) (ds : List Nat) (hds : ∀ d ∈ ds, d < 10) (acc : Nat) :
    atoiLoop s0 (ds.map digitByte) (acc : Int) = (((decVal ds acc : Nat) : Int), none) := by
  induction ds generalizing acc with
  | nil => simp [atoiLoop, decVal]
  | cons d ds ih =>
    have hd := digitByte_facts d (hds d (List.mem_cons_self _ _))
    have ih2 := ih (fun x hx => hds x (List.mem_cons_of_mem _ hx)) (acc * 10 + d)
    simp only [List.map_cons, atoiLoop, hd.2.1, if_false, hd.1]
    rw [show ((acc : Int) * 10 + (d : Int)) = ((acc * 10 + d : Nat) : Int) by push_cast; ring]
    rw [ih2]
    simp [decVal]

theorem parseUintLoop_digits (s0 : List Byte) (ds : List Nat) (hds : ∀ d ∈ ds, d < 10)
    (acc : Nat) (hv : decVal ds acc < 2 ^ 64) :
    parseUintLoop s0 (ds.map digitByte) acc = (decVal ds acc, none) := by
  induction ds generalizing acc with
  | nil => simp [parseUintLoop, decVal]
  | cons d ds ih =>
    have hd := digitByte_facts d (hds d (List.mem_cons_self _ _))
    have hv2 : decVal ds (acc * 10 + d) < 2 ^ 64 := by simpa [decVal] using hv
    have ih2 := ih (fun x hx => hds x (List.mem_cons_of_mem _ hx)) (acc * 10 + d) hv2
    have hle := le_decVal ds (acc * 10 + d)
    have hlt : acc * 10 + d < 2 ^ 64 := lt_of_le_of_lt hle hv2
    have hmod : (acc * 10 + d) % 2 ^ 64 = acc * 10 + d := Nat.mod_eq_of_lt hlt
    have h1 : ¬ (acc ≥ maxUint64 / 10 + 1) := by
      have : maxUint64 / 10 + 1 = 1844674407370955162 := by decide
      rw [this]; norm_num at hlt ⊢; omega
    have h2 : ¬ (acc * 10 + d < acc * 10 ∨ acc * 10 + d > maxUint64) := by
      have : maxUint64 = 18446744073709551615 := by decide
      rw [this]; norm_num at hlt ⊢; omega
    simp only [List.map_cons, parseUintLoop, hd.2.2.2.1, hd.2.2.2.2.1, and_self, if_true,
      hd.2.2.1, if_false, h1, hd.1, hmod, h2]
    rw [ih2]
    simp [decVal]

theorem wrap64_of_inInt (v : Int) (h : InInt v) : wrap64 v = v := by
  unfold InInt minInt maxInt at h
  unfold wrap64
  have h1 : (0 : Int) ≤ v + 2 ^ 63 := by omega
  have h2 : v + 2 ^ 63 < 2 ^ 64 := by omega
  rw [Int.emod_eq_of_lt h1 h2]; ring

theorem renderInt_nonneg (v : Int) (h : 0 ≤ v) :
    renderInt v = (decDigits v.natAbs).map digitByte := by
  unfold renderInt; rw [if_neg (by omega)]

theorem renderInt_neg (v : Int) (h : v < 0) :
    renderInt v = (45 : Byte) :: (decDigits v.natAbs).map digitByte := by
  unfold renderInt; rw [if_pos h]

theorem ParseUint_digits (ds : List Nat) (hne : ds ≠ []) (hds : ∀ d ∈ ds, d < 10)
    (hv : decVal ds 0 < 2 ^ 64) :
    ParseUint (ds.map digitByte) = (decVal ds 0, none) := by
  unfold ParseUint
  rw [if_neg (by simpa using hne)]
  exact parseUintLoop_digits _ ds hds 0 hv

theorem wrap64_neg_wrap64 (un : Nat) (h : un ≤ 2 ^ 63) :
    wrap64 (-(wrap64 (un : Int))) = -(un : Int) := by
  rcases Nat.lt_or_ge un (2 ^ 63) with hlt | hge
  · have h1 : InInt (un : Int) := by
      unfold InInt minInt maxInt; constructor <;> omega
    rw [wrap64_of_inInt _ h1]
    apply wrap64_of_inInt
    unfold InInt minInt maxInt; constructor <;> omega
  · have : un = 2 ^ 63 := by omega
    subst this
    decide

theorem Atoi_nonneg (v : Int) (h0 : 0 ≤ v) (h : InInt v) : Atoi (renderInt v) = (v, none) := by
  rw [renderInt_nonneg v h0]
  have hlt := decDigits_lt v.natAbs
  have hval := decVal_decDigits v.natAbs
  have hne := decDigits_ne_nil v.natAbs
  have hv : ((v.natAbs : Nat) : Int) = v := Int.natAbs_of_nonneg h0
  have hb : v.natAbs < 2 ^ 63 := by
    unfold InInt minInt maxInt at h; omega
  generalize decDigits v.natAbs = ds at hlt hval hne
  have hloop := atoiLoop_digits (ds.map digitByte) ds hlt 0
  have hpu := ParseUint_digits ds hne hlt (by rw [hval]; omega)
  rw [hval] at hpu
  rw [Nat.cast_zero, hval, hv] at hloop
  cases ds with
  | nil => exact absurd rfl hne
  | cons d ds' =>
    have hd := digitByte_facts d (hlt d (List.mem_cons_self _ _))
    simp only [List.map_cons] at hloop hpu ⊢
    unfold Atoi
    simp only [hd.2.2.2.2.2.2.1, hd.2.2.2.2.2.2.2, or_self, decide_False, Bool.false_eq_true,
      false_and, if_false, hloop]
    split
    · rfl
    · unfold ParseInt
      simp only [hd.2.2.2.2.2.2.1, hd.2.2.2.2.2.2.2, if_false, hpu]
      have h1 : ¬ (9223372036854775808 ≤ v.natAbs) := by omega
      have habs : |v| = v := abs_of_nonneg h0
      simp [h1, habs, wrap64_of_inInt v h]

theorem Atoi_neg (v : Int) (h0 : v < 0) (h : InInt v) : Atoi (renderInt v) = (v, none) := by
  rw [renderInt_neg v h0]
  have hlt := decDigits_lt v.natAbs
  have hval := decVal_decDigits v.natAbs
  have hne := decDigits_ne_nil v.natAbs
  have hv : -((v.natAbs : Nat) : Int) = v := by omega
  have hb : v.natAbs ≤ 2 ^ 63 := by
    unfold InInt minInt maxInt at h; omega
  generalize decDigits v.natAbs = ds at hlt hval hne
  have hloop := atoiLoop_digits ((45 : Byte) :: ds.map digitByte) ds hlt 0
  have hpu := ParseUint_digits ds hne hlt (by rw [hval]; omega)
  rw [hval] at hpu
  rw [Nat.cast_zero, hval] at hloop
  have hlen : ¬ ((ds.map digitByte).length < 1) := by
    cases ds with
    | nil => exact absurd rfl hne
    | cons d ds' => simp
  unfold Atoi
  simp only [true_or, decide_True, true_and, hlen, if_false, if_true, hloop]
  split
  · simpa using hv
  · unfold ParseInt
    have h45 : ¬ ((45 : Byte) = 43) := by decide
    simp only [h45, if_false, if_true, hpu]
    have h1 : ¬ (9223372036854775808 < v.natAbs) := by omega
    have hw := wrap64_neg_wrap64 v.natAbs hb
    rw [hv, Int.natCast_natAbs] at hw
    simp [h1, hw]

/-- `strconv.Atoi` reads back the base-10 rendering of every `int`. -/
theorem Atoi_renderInt (v : Int) (h : InInt v) : Atoi (renderInt v) = (v, none) := by
  rcases lt_or_le v 0 with h0 | h0
  · exact Atoi_neg v h0 h
  · exact Atoi_nonneg v h0 h

/-! ## `strings.Split` -/

theorem Split_cons_ne (c : Byte) (cs : List Byte) (sep : Byte) (h : c ≠ sep) :
    Split (c :: cs) sep =
      match Split cs sep with
      | [] => [[c]]
      | p :: ps => (c :: p) :: ps := by
  conv_lhs => unfold Split
  rw [if_neg h]

theorem Split_ne_nil (s : List Byte) (sep : Byte) : Split s sep ≠ [] := by
  induction s with
  | nil => simp [Split]
  | cons c cs ih =>
    unfold Split
    split
    · simp
    · split <;> simp

theorem Split_length (s : List Byte) (sep : Byte) :
    (Split s sep).length = s.count sep + 1 := by
  induction s with
  | nil => simp [Split]
  | cons c cs ih =>
    unfold Split
    by_cases h : c = sep
    · subst h
      simp [ih]
    · rw [if_neg h, List.count_cons_of_ne (Ne.symm h)]
      rw [← ih]
      split
      · rename_i heq; exact absurd heq (Split_ne_nil cs sep)
      · rename_i heq; simp [heq]

theorem Split_of_not_mem (a : List Byte) (sep : Byte) (h : sep ∉ a) : Split a sep = [a] := by
  induction a with
  | nil => simp [Split]
  | cons c cs ih =>
    have hc : c ≠ sep := fun e => h (by simp [e])
    have hcs : sep ∉ cs := fun e => h (List.mem_cons_of_mem _ e)
    rw [Split_cons_ne _ _ _ hc, ih hcs]

theorem Split_append_sep (a b : List Byte) (sep : Byte) (h : sep ∉ a) :
    Split (a ++ sep :: b) sep = a :: Split b sep := by
  induction a with
  | nil => simp [Split]
  | cons c cs ih =>
    have hc : c ≠ sep := fun e => h (by simp [e])
    have hcs : sep ∉ cs := fun e => h (List.mem_cons_of_mem _ e)
    rw [List.cons_append, Split_cons_ne _ _ _ hc, ih hcs]

theorem comma_not_mem_renderInt (v : Int) : (44 : Byte) ∉ renderInt v := by
  have key : (44 : Byte) ∉ (decDigits v.natAbs).map digitByte := by
    intro hmem
    obtain ⟨d, hd, he⟩ := List.mem_map.mp hmem
    exact (digitByte_facts d (decDigits_lt _ d hd)).2.2.2.2.2.1 he
  unfold renderInt
  split
  · intro hmem
    rcases List.mem_cons.mp hmem with h | h
    · exact absurd h (by decide)
    · exact key h
  · exact key

theorem Split_payload (v0 v1 v2 v3 v4 v5 v6 : Int) :
    Split (joinComma [renderInt v0, renderInt v1, renderInt v2, renderInt v3, renderInt v4,
      renderInt v5, renderInt v6]) 44 =
    [renderInt v0, renderInt v1, renderInt v2, renderInt v3, renderInt v4, renderInt v5,
      renderInt v6] := by
  simp only [joinComma]
  rw [Split_append_sep _ _ _ (comma_not_mem_renderInt v0),
    Split_append_sep _ _ _ (comma_not_mem_renderInt v1),
    Split_append_sep _ _ _ (comma_not_mem_renderInt v2),
    Split_append_sep _ _ _ (comma_not_mem_renderInt v3),
    Split_append_sep _ _ _ (comma_not_mem_renderInt v4),
    Split_append_sep _ _ _ (comma_not_mem_renderInt v5),
    Split_of_not_mem _ _ (comma_not_mem_renderInt v6)]

/-- C1. Round trip of `parseServerStat`: for every seven integers of the `int`
range, negative ones included, decoding their base-10 renderings joined by
single commas succeeds (the error is `nil`) and gives the snapshot whose fields
are the seven integers in the order of the payload. -/
theorem parseServerStat_roundtrip (v0 v1 v2 v3 v4 v5 v6 : Int)
    (h0 : InInt v0) (h1 : InInt v1) (h2 : InInt v2) (h3 : InInt v3) (h4 : InInt v4)
    (h5 : InInt v5) (h6 : InInt v6) :
    parseServerStat (joinComma [renderInt v0, renderInt v1, renderInt v2, renderInt v3,
      renderInt v4, renderInt v5, renderInt v6]) =
    ({ CurrentLA := v0, MemBytesAvailable := v1, MemBytesUsed := v2, DiskBytesAvailable := v3,
       DiskBytesUsed := v4, NetBandwidthAvailable := v5, NetBandwidthUsed := v6 }, none) := by
  unfold parseServerStat
  rw [Split_payload]
  simp only [Atoi_renderInt _ h0, Atoi_renderInt _ h1, Atoi_renderInt _ h2, Atoi_renderInt _ h3,
    Atoi_renderInt _ h4, Atoi_renderInt _ h5, Atoi_renderInt _ h6, serverStat.zero]

/-- Witness of C1: the payload `7,2048,1536,10240,9216,1000000,950000`. -/
theorem parseServerStat_roundtrip_witness :
    (InInt 7 ∧ InInt 2048 ∧ InInt 1536 ∧ InInt 10240 ∧ InInt 9216 ∧ InInt 1000000 ∧
      InInt 950000) ∧
    joinComma [renderInt 7, renderInt 2048, renderInt 1536, renderInt 10240, renderInt 9216,
      renderInt 1000000, renderInt 950000] = bytesOf "7,2048,1536,10240,9216,1000000,950000" ∧
    parseServerStat (bytesOf "7,2048,1536,10240,9216,1000000,950000") =
      ({ CurrentLA := 7, MemBytesAvailable := 2048, MemBytesUsed := 1536,
         DiskBytesAvailable := 10240, DiskBytesUsed := 9216, NetBandwidthAvailable := 1000000,
         NetBandwidthUsed := 950000 }, none) := by
  have e : joinComma [renderInt 7, renderInt 2048, renderInt 1536, renderInt 10240,
      renderInt 9216, renderInt 1000000, renderInt 950000] =
      bytesOf "7,2048,1536,10240,9216,1000000,950000" := by decide
  refine ⟨by decide, e, ?_⟩
  rw [← e]
  exact parseServerStat_roundtrip 7 2048 1536 10240 9216 1000000 950000 (by decide) (by decide)
    (by decide) (by decide) (by decide) (by decide) (by decide)

theorem length_eq_seven {α : Type} (l : List α) (h : l.length = 7) :
    ∃ a b c d e f g, l = [a, b, c, d, e, f, g] := by
  match l, h with
  | [a, b, c, d, e, f, g], _ => exact ⟨a, b, c, d, e, f, g, rfl⟩

/-- With a field count other than seven the schema error is returned, whatever
the fields hold. -/
theorem parse_wrong_count (input : List Byte) (h : (Split input 44).length ≠ 7) :
    parseServerStat input =
      (serverStat.zero, some (.withInt "expected 7 values, got " (Split input 44).length)) := by
  unfold parseServerStat
  split
  · rename_i heq
    rw [heq] at h
    exact absurd rfl h
  · rfl

/-- With seven fields the error, if any, is a field error. -/
theorem parse_seven_fields (input : List Byte) (h : (Split input 44).length = 7) :
    (parseServerStat input).2 = none ∨
      ∃ text e, (parseServerStat input).2 = some (.withErr text e) := by
  obtain ⟨a, b, c, d, e, f, g, heq⟩ := length_eq_seven _ h
  unfold parseServerStat
  rw [heq]
  simp only
  repeat' split
  all_goals first
    | exact Or.inl rfl
    | exact Or.inr ⟨_, _, rfl⟩

/-- C2. `parseServerStat` fails with the schema error "expected 7 values, got N"
exactly when the input does not hold exactly six commas; `N` is the number of
fields that `strings.Split` returns, the number of commas plus one, and the
snapshot returned with it is the zero snapshot. No other error of
`parseServerStat` is built from the schema format. The empty input reports 1. -/
theorem schema_error_iff (input : List Byte) :
    (Split input 44).length = input.count 44 + 1 ∧
    (parseServerStat input =
        (serverStat.zero,
          some (.withInt "expected 7 values, got " ((input.count 44 + 1 : Nat) : Int))) ↔
      input.count 44 ≠ 6) ∧
    ((∃ text n, (parseServerStat input).2 = some (.withInt text n)) ↔ input.count 44 ≠ 6) ∧
    parseServerStat [] = (serverStat.zero, some (.withInt "expected 7 values, got " 1)) := by
  have hlen := Split_length input 44
  refine ⟨hlen, ?_, ?_, by decide⟩
  · constructor
    · intro hp hc
      have h7 : (Split input 44).length = 7 := by rw [hlen, hc]
      rcases parse_seven_fields input h7 with h | ⟨t, e, h⟩
      · rw [hp] at h; exact absurd h (by simp)
      · rw [hp] at h; exact absurd h (by simp)
    · intro hc
      have h7 : (Split input 44).length ≠ 7 := by rw [hlen]; omega
      rw [parse_wrong_count input h7, hlen]
  · constructor
    · rintro ⟨t, n, hp⟩ hc
      have h7 : (Split input 44).length = 7 := by rw [hlen, hc]
      rcases parse_seven_fields input h7 with h | ⟨t, e, h⟩
      · rw [hp] at h; exact absurd h (by simp)
      · rw [hp] at h; exact absurd h (by simp)
    · intro hc
      have h7 : (Split input 44).length ≠ 7 := by rw [hlen]; omega
      exact ⟨_, _, by rw [parse_wrong_count input h7]⟩

/-- The empty input has one field: the schema error reports 1; and a payload of
eight fields that are not numbers reports 8. -/
theorem schema_error_examples :
    parseServerStat [] = (serverStat.zero, some (.withInt "expected 7 values, got " 1)) ∧
    parseServerStat (bytesOf "a,b,c,d,e,f,g,h") =
      (serverStat.zero, some (.withInt "expected 7 values, got " 8)) := by
  decide

/-- Fail fast: when the fields before field `k` are integers and field `k` is not,
the error is the field error of field `k`, whatever the later fields hold. -/
theorem field_error_at (input : List Byte) (ps : List (List Byte)) (k : Nat) (e : NumError)
    (hs : Split input 44 = ps) (hl : ps.length = 7) (hk : k < 7)
    (hok : ∀ i, i < k → (Atoi (ps.getD i [])).2 = none)
    (hbad : (Atoi (ps.getD k [])).2 = some e) :
    (parseServerStat input).2 = some (.withErr (fieldLabel k) e) := by
  obtain ⟨p0, p1, p2, p3, p4, p5, p6, rfl⟩ := length_eq_seven ps hl
  unfold parseServerStat
  rw [hs]
  simp only
  have h0 := hok 0
  have h1 := hok 1
  have h2 := hok 2
  have h3 := hok 3
  have h4 := hok 4
  have h5 := hok 5
  simp only [List.getD_cons_zero, List.getD_cons_succ] at h0 h1 h2 h3 h4 h5
  interval_cases k
  · simp only [List.getD_cons_zero] at hbad
    rcases ha : Atoi p0 with ⟨v, _ | e0⟩
    · rw [ha] at hbad; simp at hbad
    · rw [ha] at hbad; simp only [Option.some.injEq] at hbad; subst hbad; rfl
  · simp only [List.getD_cons_zero, List.getD_cons_succ] at hbad
    have g0 := h0 (by norm_num)
    rcases ha : Atoi p0 with ⟨v0, _ | e0⟩ <;> rw [ha] at g0 <;> simp at g0
    rcases hb : Atoi p1 with ⟨v, _ | e1⟩
    · rw [hb] at hbad; simp at hbad
    · rw [hb] at hbad; simp only [Option.some.injEq] at hbad; subst hbad; rfl
  · simp only [List.getD_cons_zero, List.getD_cons_succ] at hbad
    have g0 := h0 (by norm_num)
    have g1 := h1 (by norm_num)
    rcases ha : Atoi p0 with ⟨v0, _ | e0⟩ <;> rw [ha] at g0 <;> simp at g0
    rcases ha1 : Atoi p1 with ⟨v1, _ | e1⟩ <;> rw [ha1] at g1 <;> simp at g1
    rcases hb : Atoi p2 with ⟨v, _ | e1⟩
    · rw [hb] at hbad; simp at hbad
    · rw [hb] at hbad; simp only [Option.some.injEq] at hbad; subst hbad; rfl
  · simp only [List.getD_cons_zero, List.getD_cons_succ] at hbad
    have g0 := h0 (by norm_num)
    have g1 := h1 (by norm_num)
    have g2 := h2 (by norm_num)
    rcases ha : Atoi p0 with ⟨v0, _ | e0⟩ <;> rw [ha] at g0 <;> simp at g0
    rcases ha1 : Atoi p1 with ⟨v1, _ | e1⟩ <;> rw [ha1] at g1 <;> simp at g1
    rcases ha2 : Atoi p2 with ⟨v2, _ | e2⟩ <;> rw [ha2] at g2 <;> simp at g2
    rcases hb : Atoi p3 with ⟨v, _ | e1⟩
    · rw [hb] at hbad; simp at hbad
    · rw [hb] at hbad; simp only [Option.some.injEq] at hbad; subst hbad; rfl
  · simp only [List.getD_cons_zero, List.getD_cons_succ] at hbad
    have g0 := h0 (by norm_num)
    have g1 := h1 (by norm_num)
    have g2 := h2 (by norm_num)
    have g3 := h3 (by norm_num)
    rcases ha : Atoi p0 with ⟨v0, _ | e0⟩ <;> rw [ha] at g0 <;> simp at g0
    rcases ha1 : Atoi p1 with ⟨v1, _ | e1⟩ <;> rw [ha1] at g1 <;> simp at g1
    rcases ha2 : Atoi p2 with ⟨v2, _ | e2⟩ <;> rw [ha2] at g2 <;> simp at g2
    rcases ha3 : Atoi p3 with ⟨v3, _ | e3⟩ <;> rw [ha3] at g3 <;> simp at g3
    rcases hb : Atoi p4 with ⟨v, _ | e1⟩
    · rw [hb] at hbad; simp at hbad
    · rw [hb] at hbad; simp only [Option.some.injEq] at hbad; subst hbad; rfl
  · simp only [List.getD_cons_zero, List.getD_cons_succ] at hbad
    have g0 := h0 (by norm_num)
    have g1 := h1 (by norm_num)
    have g2 := h2 (by norm_num)
    have g3 := h3 (by norm_num)
    have g4 := h4 (by norm_num)
    rcases ha : Atoi p0 with ⟨v0, _ | e0⟩ <;> rw [ha] at g0 <;> simp at g0
    rcases ha1 : Atoi p1 with ⟨v1, _ | e1⟩ <;> rw [ha1] at g1 <;> simp at g1
    rcases ha2 : Atoi p2 with ⟨v2, _ | e2⟩ <;> rw [ha2] at g2 <;> simp at g2
    rcases ha3 : Atoi p3 with ⟨v3, _ | e3⟩ <;> rw [ha3] at g3 <;> simp at g3
    rcases ha4 : Atoi p4 with ⟨v4, _ | e4⟩ <;> rw [ha4] at g4 <;> simp at g4
    rcases hb : Atoi p5 with ⟨v, _ | e1⟩
    · rw [hb] at hbad; simp at hbad
    · rw [hb] at hbad; simp only [Option.some.injEq] at hbad; subst hbad; rfl
  · simp only [List.getD_cons_zero, List.getD_cons_succ] at hbad
    have g0 := h0 (by norm_num)
    have g1 := h1 (by norm_num)
    have g2 := h2 (by norm_num)
    have g3 := h3 (by norm_num)
    have g4 := h4 (by norm_num)
    have g5 := h5 (by norm_num)
    rcases ha : Atoi p0 with ⟨v0, _ | e0⟩ <;> rw [ha] at g0 <;> simp at g0
    rcases ha1 : Atoi p1 with ⟨v1, _ | e1⟩ <;> rw [ha1] at g1 <;> simp at g1
    rcases ha2 : Atoi p2 with ⟨v2, _ | e2⟩ <;> rw [ha2] at g2 <;> simp at g2
    rcases ha3 : Atoi p3 with ⟨v3, _ | e3⟩ <;> rw [ha3] at g3 <;> simp at g3
    rcases ha4 : Atoi p4 with ⟨v4, _ | e4⟩ <;> rw [ha4] at g4 <;> simp at g4
    rcases ha5 : Atoi p5 with ⟨v5, _ | e5⟩ <;> rw [ha5] at g5 <;> simp at g5
    rcases hb : Atoi p6 with ⟨v, _ | e1⟩
    · rw [hb] at hbad; simp at hbad
    · rw [hb] at hbad; simp only [Option.some.injEq] at hbad; subst hbad; rfl

/-- C3, at the payload `1,2,3,4,5,6,x` whose only bad field is the last one
(net-used): the error that `parseServerStat` returns is made from the format
"error parsing NetBandwidthAvailable: %v"; it names the sixth field, not
NetBandwidthUsed. -/
theorem last_field_error_label :
    (parseServerStat (bytesOf "1,2,3,4,5,6,x")).2 =
      some (.withErr "error parsing NetBandwidthAvailable: "
        { Func := "Atoi", Num := bytesOf "x", Err := .ErrSyntax }) ∧
    (parseServerStat (bytesOf "1,2,3,4,5,6,x")).2 ≠
      some (.withErr "error parsing NetBandwidthUsed: "
        { Func := "Atoi", Num := bytesOf "x", Err := .ErrSyntax }) := by
  decide

/-- C4, at the payload `7,x,0,0,0,0,0`: `parseServerStat` returns a field error
for the second field together with a snapshot that is not the zero snapshot: it
still carries the load average 7 that was parsed before the failure. -/
theorem field_error_keeps_parsed_fields :
    parseServerStat (bytesOf "7,x,0,0,0,0,0") =
      ({ CurrentLA := 7, MemBytesAvailable := 0, MemBytesUsed := 0, DiskBytesAvailable := 0,
         DiskBytesUsed := 0, NetBandwidthAvailable := 0, NetBandwidthUsed := 0 },
        some (.withErr "error parsing MemBytesAvailable: "
          { Func := "Atoi", Num := bytesOf "x", Err := .ErrSyntax })) ∧
    (parseServerStat (bytesOf "7,x,0,0,0,0,0")).1 ≠ serverStat.zero := by
  decide

/-! ## The rounding of `float64` -/

theorem log2Fuel_spec (fuel n : Nat) (hn : 0 < n) (hf : n ≤ fuel) :
    2 ^ log2Fuel fuel n ≤ n ∧ n < 2 ^ (log2Fuel fuel n + 1) := by
  induction fuel generalizing n with
  | zero => omega
  | succ f ih =>
    unfold log2Fuel
    split
    · simp; omega
    · have h2 : 0 < n / 2 := by omega
      have h3 : n / 2 ≤ f := by omega
      obtain ⟨ha, hb⟩ := ih (n / 2) h2 h3
      rw [pow_succ] at hb ⊢
      rw [pow_succ]
      constructor <;> omega

theorem ilog2_spec (n : Nat) (hn : 0 < n) : 2 ^ ilog2 n ≤ n ∧ n < 2 ^ (ilog2 n + 1) :=
  log2Fuel_spec n n hn le_rfl

theorem divRoundEven_ge (n d M : Nat) (hd : 0 < d) (hM : M % 2 = 0)
    (h : (2 * M - 1) * d ≤ 2 * n) : M ≤ divRoundEven n d := by
  have hdm := Nat.div_add_mod n d
  have hr := Nat.mod_lt n hd
  by_contra hlt
  push_neg at hlt
  rcases Nat.eq_zero_or_pos M with h0 | hpos
  · omega
  have hq : n / d ≤ M - 1 := by
    unfold divRoundEven at hlt
    simp only at hlt
    split_ifs at hlt <;> omega
  have hsub : (2 * M - 1) * d = 2 * (M - 1) * d + d := by
    have : 2 * M - 1 = 2 * (M - 1) + 1 := by omega
    rw [this, Nat.add_mul, Nat.one_mul]
  rcases Nat.lt_or_ge (n / d) (M - 1) with hq2 | hq2
  · have h1 : d * (n / d) + d ≤ d * (M - 1) := by
      have := Nat.mul_le_mul_left d (show n / d + 1 ≤ M - 1 by omega)
      rw [Nat.mul_add, Nat.mul_one] at this
      exact this
    have h2 : 2 * (M - 1) * d = 2 * (d * (M - 1)) := by ring
    omega
  · have hqe : n / d = M - 1 := by omega
    have h2 : 2 * (M - 1) * d = 2 * (d * (M - 1)) := by ring
    rw [hqe] at hdm
    have hrr : d ≤ 2 * (n % d) := by omega
    unfold divRoundEven at hlt
    simp only at hlt
    rw [hqe] at hlt
    split_ifs at hlt <;> omega

theorem divRoundEven_le (n d M : Nat) (hd : 0 < d)
    (h : 2 * n < (2 * M + 1) * d) : divRoundEven n d ≤ M := by
  have hdm := Nat.div_add_mod n d
  have hr := Nat.mod_lt n hd
  have hexp : (2 * M + 1) * d = 2 * (d * M) + d := by ring
  have hq : n / d ≤ M := by
    by_contra hc
    push_neg at hc
    have := Nat.mul_le_mul_left d (show M + 1 ≤ n / d by omega)
    rw [Nat.mul_add, Nat.mul_one] at this
    omega
  rcases Nat.lt_or_ge (n / d) M with hq2 | hq2
  · unfold divRoundEven
    simp only
    split_ifs <;> omega
  · have hqe : n / d = M := by omega
    rw [hqe] at hdm
    have hrr : 2 * (n % d) < d := by omega
    unfold divRoundEven
    simp only
    rw [if_pos hrr]
    omega

theorem two_zpow_pos (k : Int) : (0 : ℚ) < 2 ^ k := zpow_pos (by norm_num) k

theorem toNat_pow_split (k : Int) :
    ((2 ^ k.toNat : Nat) : ℚ) = 2 ^ k * ((2 ^ (-k).toNat : Nat) : ℚ) := by
  rcases le_or_lt 0 k with h | h
  · have h1 : (-k).toNat = 0 := Int.toNat_eq_zero.mpr (by omega)
    have h2 : ((k.toNat : Nat) : Int) = k := Int.toNat_of_nonneg h
    rw [h1]
    push_cast
    rw [mul_one, ← zpow_natCast, h2]
  · have h1 : k.toNat = 0 := Int.toNat_eq_zero.mpr (by omega)
    have h2 : (((-k).toNat : Nat) : Int) = -k := Int.toNat_of_nonneg (by omega)
    rw [h1]
    push_cast
    rw [← zpow_natCast, h2, ← zpow_add₀ (by norm_num : (2 : ℚ) ≠ 0)]
    simp

theorem scaled_le (n d A : Nat) (k : Int) (hd : 0 < d) :
    A * (d * 2 ^ k.toNat) ≤ n * 2 ^ (-k).toNat ↔ (A : ℚ) * 2 ^ k ≤ (n : ℚ) / d := by
  have hdq : (0 : ℚ) < d := by exact_mod_cast hd
  have hQ : (0 : ℚ) < ((2 ^ (-k).toNat : Nat) : ℚ) := by positivity
  have hs := toNat_pow_split k
  rw [le_div_iff₀ hdq, ← Nat.cast_le (α := ℚ)]
  push_cast at hs ⊢
  rw [hs]
  constructor
  · intro h
    have : (A : ℚ) * 2 ^ k * d * 2 ^ (-k).toNat ≤ n * 2 ^ (-k).toNat := by
      calc (A : ℚ) * 2 ^ k * d * 2 ^ (-k).toNat
          = A * (d * (2 ^ k * 2 ^ (-k).toNat)) := by ring
        _ ≤ _ := h
    exact le_of_mul_le_mul_right this (by positivity)
  · intro h
    calc (A : ℚ) * (d * (2 ^ k * 2 ^ (-k).toNat))
        = (A * 2 ^ k * d) * 2 ^ (-k).toNat := by ring
      _ ≤ n * 2 ^ (-k).toNat := mul_le_mul_of_nonneg_right h (by positivity)

theorem scaled_lt (n d A : Nat) (k : Int) (hd : 0 < d) :
    n * 2 ^ (-k).toNat < A * (d * 2 ^ k.toNat) ↔ (n : ℚ) / d < (A : ℚ) * 2 ^ k := by
  rw [← not_le, ← not_le, scaled_le n d A k hd]

/-- The exponent that `ratioExp` finds is the floor of the binary logarithm. -/
theorem ratioExp_spec (n d : Nat) (hn : 0 < n) (hd : 0 < d) :
    (2 : ℚ) ^ ratioExp n d ≤ (n : ℚ) / d ∧ (n : ℚ) / d < 2 ^ (ratioExp n d + 1) := by
  obtain ⟨hn1, hn2⟩ := ilog2_spec n hn
  obtain ⟨hd1, hd2⟩ := ilog2_spec d hd
  have hdq : (0 : ℚ) < d := by exact_mod_cast hd
  have hn1q : (2 : ℚ) ^ (ilog2 n : Int) ≤ n := by
    rw [zpow_natCast]; exact_mod_cast hn1
  have hn2q : (n : ℚ) < 2 ^ ((ilog2 n : Int) + 1) := by
    rw [show ((ilog2 n : Int) + 1) = ((ilog2 n + 1 : Nat) : Int) by push_cast; rfl, zpow_natCast]
    exact_mod_cast hn2
  have hd1q : (2 : ℚ) ^ (ilog2 d : Int) ≤ d := by
    rw [zpow_natCast]; exact_mod_cast hd1
  have hd2q : (d : ℚ) < 2 ^ ((ilog2 d : Int) + 1) := by
    rw [show ((ilog2 d : Int) + 1) = ((ilog2 d + 1 : Nat) : Int) by push_cast; rfl, zpow_natCast]
    exact_mod_cast hd2
  have h2 : (2 : ℚ) ≠ 0 := by norm_num
  unfold ratioExp
  simp only
  have htest := scaled_le n d 1 ((ilog2 n : Int) - (ilog2 d : Int)) hd
  rw [Nat.one_mul, Nat.cast_one, one_mul] at htest
  split_ifs with ht
  · refine ⟨htest.mp ht, ?_⟩
    rw [div_lt_iff₀ hdq]
    calc (n : ℚ) < 2 ^ ((ilog2 n : Int) + 1) := hn2q
      _ = 2 ^ ((ilog2 n : Int) - (ilog2 d : Int) + 1) * 2 ^ (ilog2 d : Int) := by
          rw [← zpow_add₀ h2]; congr 1; ring
      _ ≤ 2 ^ ((ilog2 n : Int) - (ilog2 d : Int) + 1) * d :=
          mul_le_mul_of_nonneg_left hd1q (le_of_lt (two_zpow_pos _))
  · have hlt : (n : ℚ) / d < 2 ^ ((ilog2 n : Int) - (ilog2 d : Int)) := by
      rw [← not_le]; exact fun h => ht (htest.mpr h)
    refine ⟨?_, by rw [sub_add_cancel]; exact hlt⟩
    rw [le_div_iff₀ hdq]
    calc (2 : ℚ) ^ ((ilog2 n : Int) - (ilog2 d : Int) - 1) * d
        ≤ 2 ^ ((ilog2 n : Int) - (ilog2 d : Int) - 1) * 2 ^ ((ilog2 d : Int) + 1) :=
          mul_le_mul_of_nonneg_left (le_of_lt hd2q) (le_of_lt (two_zpow_pos _))
      _ = 2 ^ (ilog2 n : Int) := by rw [← zpow_add₀ h2]; congr 1; ring
      _ ≤ n := hn1q

theorem zpow_succ_two (k : Int) : (2 : ℚ) ^ (k + 1) = 2 * 2 ^ k := by
  rw [zpow_add_one₀ (by norm_num : (2 : ℚ) ≠ 0)]; ring

theorem zpow_add_nat (k : Int) (c : Nat) : (2 : ℚ) ^ (k + c) = 2 ^ k * 2 ^ c := by
  rw [zpow_add₀ (by norm_num : (2 : ℚ) ≠ 0), zpow_natCast]

/-- The scaled quotient that `roundRatio` rounds lies between `2 ^ 52` and `2 ^ 53`. -/
theorem roundRatio_range (n d : Nat) (hn : 0 < n) (hd : 0 < d) :
    (2 : ℚ) ^ 52 * 2 ^ (roundRatio n d).2 ≤ (n : ℚ) / d ∧
    (n : ℚ) / d < 2 ^ 53 * 2 ^ (roundRatio n d).2 := by
  obtain ⟨h1, h2⟩ := ratioExp_spec n d hn hd
  have e : (roundRatio n d).2 = ratioExp n d - 52 := rfl
  have e1 : ratioExp n d = (roundRatio n d).2 + (52 : Nat) := by rw [e]; push_cast; ring
  have e2 : ratioExp n d + 1 = (roundRatio n d).2 + (53 : Nat) := by rw [e]; push_cast; ring
  rw [e1, zpow_add_nat] at h1
  rw [e2, zpow_add_nat] at h2
  constructor
  · rw [mul_comm]; exact h1
  · rw [mul_comm]; exact h2

/-- The significand that `roundRatio` returns has 53 bits (or is `2 ^ 53`). -/
theorem roundRatio_sig (n d : Nat) (hn : 0 < n) (hd : 0 < d) :
    2 ^ 52 ≤ (roundRatio n d).1 ∧ (roundRatio n d).1 ≤ 2 ^ 53 := by
  obtain ⟨h1, h2⟩ := roundRatio_range n d hn hd
  have hden : 0 < d * 2 ^ ((roundRatio n d).2).toNat := by positivity
  have e : (roundRatio n d).1 =
      divRoundEven (n * 2 ^ (-(roundRatio n d).2).toNat) (d * 2 ^ ((roundRatio n d).2).toNat) :=
    rfl
  have a1 := (scaled_le n d (2 ^ 52) (roundRatio n d).2 hd).mpr (by exact_mod_cast h1)
  have a2 := (scaled_lt n d (2 ^ 53) (roundRatio n d).2 hd).mpr (by exact_mod_cast h2)
  rw [e]
  constructor
  · apply divRoundEven_ge _ _ _ hden (by norm_num)
    have : (2 * 2 ^ 52 - 1) * (d * 2 ^ ((roundRatio n d).2).toNat) ≤
        2 * (2 ^ 52 * (d * 2 ^ ((roundRatio n d).2).toNat)) := by
      rw [← Nat.mul_assoc 2]
      exact Nat.mul_le_mul_right _ (by norm_num)
    omega
  · apply divRoundEven_le _ _ _ hden
    have : 2 * (2 ^ 53 * (d * 2 ^ ((roundRatio n d).2).toNat)) ≤
        (2 * 2 ^ 53 + 1) * (d * 2 ^ ((roundRatio n d).2).toNat) := by
      rw [← Nat.mul_assoc 2]
      exact Nat.mul_le_mul_right _ (by norm_num)
    omega

/-- Where the rounding of `roundRatio` changes from the binary64 number below
`M * 2 ^ K` to `M * 2 ^ K`, for an even significand `M` of 53 bits that is not
`2 ^ 52`: at the midpoint `(2 * M - 1) * 2 ^ (K - 1)`, which goes up. -/
theorem roundRatio_threshold (n d : Nat) (hn : 0 < n) (hd : 0 < d) (M : Nat) (K : Int)
    (hM1 : 2 ^ 52 < M) (hM2 : M < 2 ^ 53) (hMe : M % 2 = 0) :
    (((2 * M - 1 : Nat) : ℚ) * 2 ^ (K - 1) ≤ (n : ℚ) / d →
      (M : ℚ) * 2 ^ K ≤ ((roundRatio n d).1 : ℚ) * 2 ^ (roundRatio n d).2) ∧
    ((n : ℚ) / d < ((2 * M - 1 : Nat) : ℚ) * 2 ^ (K - 1) →
      ((roundRatio n d).1 : ℚ) * 2 ^ (roundRatio n d).2 ≤ ((M - 1 : Nat) : ℚ) * 2 ^ K) := by
  obtain ⟨hr1, hr2⟩ := roundRatio_range n d hn hd
  obtain ⟨hs1, hs2⟩ := roundRatio_sig n d hn hd
  have hden : 0 < d * 2 ^ ((roundRatio n d).2).toNat := by positivity
  have e : (roundRatio n d).1 =
      divRoundEven (n * 2 ^ (-(roundRatio n d).2).toNat) (d * 2 ^ ((roundRatio n d).2).toNat) :=
    rfl
  generalize (roundRatio n d).2 = k at *
  generalize (roundRatio n d).1 = m at *
  have hb : (0 : ℚ) < 2 ^ (K - 1) := two_zpow_pos _
  have hK : (2 : ℚ) ^ K = 2 * 2 ^ (K - 1) := by
    have := zpow_succ_two (K - 1); rwa [sub_add_cancel] at this
  have hs1q : (2 : ℚ) ^ 52 ≤ m := by exact_mod_cast hs1
  have hs2q : (m : ℚ) ≤ 2 ^ 53 := by exact_mod_cast hs2
  have hM1q : (2 : ℚ) ^ 52 + 1 ≤ M := by exact_mod_cast hM1
  have hM2q : (M : ℚ) + 1 ≤ 2 ^ 53 := by exact_mod_cast hM2
  have hc1 : ((2 * M - 1 : Nat) : ℚ) = 2 * M - 1 := by
    rw [Nat.cast_sub (by omega)]; push_cast; ring
  have hc2 : ((M - 1 : Nat) : ℚ) = M - 1 := by
    rw [Nat.cast_sub (by omega)]; push_cast; ring
  have hmpos : (0 : ℚ) ≤ m := by positivity
  rcases lt_trichotomy k K with hlt | heq | hgt
  · -- the exponent is below `K`
    have hk : (2 : ℚ) ^ k ≤ 2 ^ (K - 1) := zpow_le_zpow_right₀ (by norm_num) (by omega)
    have hkpos := two_zpow_pos k
    constructor
    · intro h
      exfalso
      rw [hc1] at h
      have : (n : ℚ) / d < 2 ^ 53 * 2 ^ (K - 1) :=
        lt_of_lt_of_le hr2 (mul_le_mul_of_nonneg_left hk (by norm_num))
      nlinarith
    · intro _
      rw [hc2, hK]
      calc (m : ℚ) * 2 ^ k ≤ 2 ^ 53 * 2 ^ (K - 1) :=
            mul_le_mul hs2q hk (le_of_lt hkpos) (by norm_num)
        _ ≤ (M - 1) * (2 * 2 ^ (K - 1)) := by nlinarith
  · subst heq
    have hkk : (2 : ℚ) ^ k = 2 * 2 ^ (k - 1) := hK
    constructor
    · intro h
      have hnat : (2 * M - 1) * (d * 2 ^ k.toNat) ≤ 2 * (n * 2 ^ (-k).toNat) := by
        have := (scaled_le (2 * n) d (2 * M - 1) k hd).mpr (by
          push_cast [hc1] at h ⊢
          rw [hkk]
          rw [mul_div_assoc]
          nlinarith)
        rw [Nat.mul_assoc] at this
        exact this
      have := divRoundEven_ge _ _ M hden hMe hnat
      rw [← e] at this
      exact mul_le_mul_of_nonneg_right (by exact_mod_cast this) (le_of_lt (two_zpow_pos k))
    · intro h
      have hnat : 2 * (n * 2 ^ (-k).toNat) < (2 * (M - 1) + 1) * (d * 2 ^ k.toNat) := by
        have := (scaled_lt (2 * n) d (2 * M - 1) k hd).mpr (by
          push_cast [hc1] at h ⊢
          rw [hkk]
          rw [mul_div_assoc]
          nlinarith)
        rw [Nat.mul_assoc] at this
        rw [show 2 * (M - 1) + 1 = 2 * M - 1 by omega]
        exact this
      have := divRoundEven_le _ _ (M - 1) hden hnat
      rw [← e] at this
      exact mul_le_mul_of_nonneg_right (by exact_mod_cast this) (le_of_lt (two_zpow_pos k))
  · -- the exponent is above `K`
    have hk : (2 : ℚ) ^ (K + 1) ≤ 2 ^ k := zpow_le_zpow_right₀ (by norm_num) (by omega)
    rw [zpow_succ_two, hK] at hk
    constructor
    · intro _
      rw [hK]
      calc (M : ℚ) * (2 * 2 ^ (K - 1)) ≤ 2 ^ 52 * (2 * (2 * 2 ^ (K - 1))) := by nlinarith
        _ ≤ m * 2 ^ k := mul_le_mul hs1q hk (by positivity) hmpos
    · intro h
      exfalso
      rw [hc1] at h
      have : (2 : ℚ) ^ 52 * (2 * (2 * 2 ^ (K - 1))) ≤ (n : ℚ) / d :=
        le_trans (mul_le_mul_of_nonneg_left hk (by norm_num)) hr1
      nlinarith

theorem divRoundEven_one (x : Nat) : divRoundEven x 1 = x := by
  unfold divRoundEven
  simp [Nat.mod_one]

/-- The conversion of a positive integer below `2 ^ 53` to `float64` is exact. -/
theorem roundRatio_exact (n : Nat) (hn : 0 < n) (hlt : n < 2 ^ 53) :
    ((roundRatio n 1).1 : ℚ) * 2 ^ (roundRatio n 1).2 = n := by
  obtain ⟨hr1, hr2⟩ := roundRatio_range n 1 hn Nat.one_pos
  have e : (roundRatio n 1).1 =
      divRoundEven (n * 2 ^ (-(roundRatio n 1).2).toNat) (1 * 2 ^ ((roundRatio n 1).2).toNat) :=
    rfl
  generalize (roundRatio n 1).2 = k at *
  generalize (roundRatio n 1).1 = m at *
  have hk : k ≤ 0 := by
    by_contra hc
    push_neg at hc
    have h1 : (2 : ℚ) ^ (1 : Int) ≤ 2 ^ k := zpow_le_zpow_right₀ (by norm_num) (by omega)
    rw [zpow_one] at h1
    have h2 : (n : ℚ) < 2 ^ 53 := by exact_mod_cast hlt
    simp only [Nat.cast_one, div_one] at hr1
    nlinarith
  have hk0 : k.toNat = 0 := Int.toNat_eq_zero.mpr hk
  rw [hk0, pow_zero, Nat.mul_one, divRoundEven_one] at e
  have hs := toNat_pow_split k
  rw [hk0] at hs
  rw [e]
  push_cast at hs ⊢
  rw [mul_assoc, mul_comm (2 ^ (-k).toNat : ℚ), ← hs]
  simp

theorem roundHalfUp_ge (A d c : Nat) (hd : 0 < d) (hc : 1 ≤ c) :
    c ≤ (if d ≤ 2 * (A % d) then A / d + 1 else A / d) ↔ (2 * c - 1) * d ≤ 2 * A := by
  have hdm := Nat.div_add_mod A d
  have hr := Nat.mod_lt A hd
  have hexp : (2 * c - 1) * d = 2 * (d * (c - 1)) + d := by
    have : 2 * c - 1 = 2 * (c - 1) + 1 := by omega
    rw [this]; ring
  rcases Nat.lt_trichotomy (A / d) (c - 1) with h | h | h
  · have h1 := Nat.mul_le_mul_left d (show A / d + 1 ≤ c - 1 by omega)
    rw [Nat.mul_add, Nat.mul_one] at h1
    constructor
    · intro hh; split_ifs at hh <;> omega
    · intro hh; omega
  · rw [h] at hdm ⊢
    constructor
    · intro hh; split_ifs at hh <;> omega
    · intro hh; rw [if_pos (by omega)]; omega
  · have h1 := Nat.mul_le_mul_left d (show c ≤ A / d by omega)
    have h2 : d * c = d * (c - 1) + d := by
      have : c = (c - 1) + 1 := by omega
      rw [this, Nat.mul_add, Nat.mul_one]; simp
    constructor
    · intro _; omega
    · intro _; split_ifs <;> omega

theorem toInt_fin_zero (impl : F64 → Int) (x : Int) (h : InInt x) :
    F64.toInt impl (.fin x 0) = x := by
  unfold F64.toInt
  simp [h]

/-- When `int(math.Round(f))` is at least `c`, for a finite `f` of moderate size
and a positive integer `c`: exactly when `f` is at least `c - 1 / 2`. -/
theorem toInt_Round_ge (impl : F64 → Int) (m e : Int) (c : Int) (hc : 1 ≤ c)
    (hb1 : -(2 : ℚ) ^ 62 ≤ (m : ℚ) * 2 ^ e) (hb2 : (m : ℚ) * 2 ^ e ≤ 2 ^ 62) :
    c ≤ F64.toInt impl (Round (.fin m e)) ↔ (c : ℚ) - 1 / 2 ≤ (m : ℚ) * 2 ^ e := by
  rcases le_or_lt 0 e with he | he
  · have hte : ((e.toNat : Nat) : Int) = e := Int.toNat_of_nonneg he
    have hv : (((m * 2 ^ e.toNat : Int)) : ℚ) = (m : ℚ) * 2 ^ e := by
      push_cast
      rw [← zpow_natCast, hte]
    have hin : InInt (m * 2 ^ e.toNat) := by
      unfold InInt minInt maxInt
      rw [← hv] at hb1 hb2
      have h1 : (-(2 : Int) ^ 62) ≤ m * 2 ^ e.toNat := by exact_mod_cast hb1
      have h2 : m * 2 ^ e.toNat ≤ (2 : Int) ^ 62 := by exact_mod_cast hb2
      constructor <;> omega
    have hres : F64.toInt impl (Round (.fin m e)) = m * 2 ^ e.toNat := by
      simp only [Round, if_pos he, F64.toInt, if_pos hin]
    rw [hres, ← hv]
    constructor
    · intro h
      have : (c : ℚ) ≤ ((m * 2 ^ e.toNat : Int) : ℚ) := by exact_mod_cast h
      linarith
    · intro h
      have : (c : ℚ) < ((m * 2 ^ e.toNat + 1 : Int) : ℚ) := by push_cast at h ⊢; linarith
      have := Int.cast_lt.mp this
      omega
  · have hne : ¬ (0 ≤ e) := by omega
    have hs := toNat_pow_split e
    have he0 : e.toNat = 0 := Int.toNat_eq_zero.mpr (by omega)
    rw [he0, pow_zero, Nat.cast_one] at hs
    have hd : 0 < 2 ^ (-e).toNat := by positivity
    have hdq : (0 : ℚ) < ((2 ^ (-e).toNat : Nat) : ℚ) := by exact_mod_cast hd
    have hpe := two_zpow_pos e
    -- the value is `m / d`
    have hval : (m : ℚ) * 2 ^ e * ((2 ^ (-e).toNat : Nat) : ℚ) = m := by
      rw [mul_assoc, ← hs, mul_one]
    generalize hdd : 2 ^ (-e).toNat = d at *
    have hAle : m.natAbs ≤ 2 ^ 62 * d := by
      have h1 : ((m.natAbs : Nat) : ℚ) = |(m : ℚ)| := by
        rw [Nat.cast_natAbs, Int.cast_abs]
      have h2 : |(m : ℚ)| ≤ 2 ^ 62 * d := by
        rw [abs_le]
        constructor
        · rw [← hval]; nlinarith
        · rw [← hval]; nlinarith
      rw [← h1] at h2
      exact_mod_cast h2
    have hq : m.natAbs / d ≤ 2 ^ 62 := by
      apply Nat.div_le_of_le_mul
      rw [Nat.mul_comm]; exact hAle
    have hres : F64.toInt impl (Round (.fin m e)) =
        (if m < 0 then -((if d ≤ 2 * (m.natAbs % d) then m.natAbs / d + 1 else m.natAbs / d :
          Nat) : Int) else ((if d ≤ 2 * (m.natAbs % d) then m.natAbs / d + 1 else m.natAbs / d :
          Nat) : Int)) := by
      simp only [Round, if_neg hne, hdd]
      apply toInt_fin_zero
      unfold InInt minInt maxInt
      generalize m.natAbs / d = q at hq ⊢
      generalize m.natAbs % d = r
      by_cases h1 : d ≤ 2 * r <;> by_cases h2 : m < 0 <;>
        simp only [h1, h2, if_true, if_false] <;> constructor <;> omega
    rw [hres]
    rcases lt_or_le m 0 with hm | hm
    · rw [if_pos hm]
      have hmq : (m : ℚ) < 0 := by exact_mod_cast hm
      have hcq : (1 : ℚ) ≤ c := by exact_mod_cast hc
      constructor
      · intro h; exfalso
        have : (0 : Int) ≤ ((if d ≤ 2 * (m.natAbs % d) then m.natAbs / d + 1 else m.natAbs / d :
          Nat) : Int) := Int.ofNat_nonneg _
        omega
      · intro h; exfalso; nlinarith
    · rw [if_neg (by omega)]
      have hcn : ((c.toNat : Nat) : Int) = c := Int.toNat_of_nonneg (by omega)
      have hkey := roundHalfUp_ge m.natAbs d c.toNat hd (by omega)
      have hmn : ((m.natAbs : Nat) : Int) = m := Int.natAbs_of_nonneg hm
      have hlhs : c ≤ ((if d ≤ 2 * (m.natAbs % d) then m.natAbs / d + 1 else m.natAbs / d :
          Nat) : Int) ↔
          c.toNat ≤ (if d ≤ 2 * (m.natAbs % d) then m.natAbs / d + 1 else m.natAbs / d) := by
        rw [← hcn]; simp only [Int.toNat_ofNat]; exact Nat.cast_le
      rw [hlhs, hkey]
      have hrhs : ((2 * c.toNat - 1) * d ≤ 2 * m.natAbs) ↔
          ((2 * (c : ℚ) - 1) * d ≤ 2 * m) := by
        have e1 : (((2 * c.toNat - 1 : Nat)) : ℚ) = 2 * (c : ℚ) - 1 := by
          rw [Nat.cast_sub (by omega)]
          push_cast
          have : ((c.toNat : Nat) : ℚ) = c := by exact_mod_cast hcn
          rw [this]
        have e2 : ((m.natAbs : Nat) : ℚ) = m := by
          rw [Nat.cast_natAbs, abs_of_nonneg hm]
        have e3 : (((2 * c.toNat - 1) * d : Nat) : ℚ) = (2 * (c : ℚ) - 1) * d := by
          rw [Nat.cast_mul, e1]
        have e4 : ((2 * m.natAbs : Nat) : ℚ) = 2 * m := by
          rw [Nat.cast_mul, e2]; norm_num
        rw [← Nat.cast_le (α := ℚ), e3, e4]
      rw [hrhs]
      constructor
      · intro h
        have : ((c : ℚ) - 1 / 2) * d ≤ (m : ℚ) * 2 ^ e * d := by rw [hval]; linarith
        exact le_of_mul_le_mul_right this hdq
      · intro h
        have := mul_le_mul_of_nonneg_right h (le_of_lt hdq)
        rw [hval] at this
        linarith

theorem ofInt_hundred : F64.ofInt 100 = .fin 7036874417766400 (-46) := by decide

theorem ofInt_pos (u : Nat) (hu : 0 < u) :
    F64.ofInt (u : Int) = .fin ((roundRatio u 1).1 : Int) (roundRatio u 1).2 := by
  unfold F64.ofInt
  have h1 : ¬ ((u : Int) = 0) := by omega
  have h2 : ¬ ((u : Int) < 0) := by omega
  simp only [h1, h2, if_false, Int.natAbs_ofNat]

theorem ofInt_neg (u : Nat) (hu : 0 < u) :
    F64.ofInt (-(u : Int)) = .fin (-((roundRatio u 1).1 : Int)) (roundRatio u 1).2 := by
  unfold F64.ofInt
  have h1 : ¬ (-(u : Int) = 0) := by omega
  have h2 : (-(u : Int) < 0) := by omega
  simp only [h1, h2, if_false, if_true, Int.natAbs_neg, Int.natAbs_ofNat]

theorem usagePercent_pos (impl : F64 → Int) (u a : Nat) (hu : 0 < u) (ha : 0 < a) :
    usagePercent impl u a =
      F64.toInt impl (Round (.fin ((pctBits u a).1 : Int) (pctBits u a).2)) := by
  have su := (roundRatio_sig u 1 hu Nat.one_pos).1
  have sa := (roundRatio_sig a 1 ha Nat.one_pos).1
  have hu0 : 0 < (roundRatio u 1).1 := lt_of_lt_of_le (by norm_num) su
  have ha0 : 0 < (roundRatio a 1).1 := lt_of_lt_of_le (by norm_num) sa
  have sq := (roundRatio_sig _ _ hu0 ha0).1
  have hq0 : 0 < (roundRatio (roundRatio u 1).1 (roundRatio a 1).1).1 :=
    lt_of_lt_of_le (by norm_num) sq
  unfold usagePercent
  rw [ofInt_pos u hu, ofInt_pos a ha, ofInt_hundred]
  have h1 : ¬ (((roundRatio a 1).1 : Int) = 0) := by omega
  have h2 : ¬ (((roundRatio u 1).1 : Int) = 0) := by omega
  have h3 : ¬ (((roundRatio u 1).1 : Int) < 0) := by omega
  have h4 : ¬ (((roundRatio a 1).1 : Int) < 0) := by omega
  simp only [F64.div, h1, h2, h3, h4, if_false, decide_False, bne_self_eq_false,
    Bool.false_eq_true, Int.natAbs_ofNat]
  have h5 : ¬ (((roundRatio (roundRatio u 1).1 (roundRatio a 1).1).1 : Int) *
      7036874417766400 = 0) := by
    have : (0 : Int) < ((roundRatio (roundRatio u 1).1 (roundRatio a 1).1).1 : Int) := by
      omega
    omega
  have h6 : ¬ (((roundRatio (roundRatio u 1).1 (roundRatio a 1).1).1 : Int) *
      7036874417766400 < 0) := by
    have : (0 : Int) < ((roundRatio (roundRatio u 1).1 (roundRatio a 1).1).1 : Int) := by
      omega
    omega
  have h7 : (((roundRatio (roundRatio u 1).1 (roundRatio a 1).1).1 : Int) *
      7036874417766400).natAbs =
      (roundRatio (roundRatio u 1).1 (roundRatio a 1).1).1 * 7036874417766400 := by
    rw [Int.natAbs_mul]; simp
  simp only [F64.mul, h5, h6, if_false, h7, pctBits]

/-- The threshold of `roundRatio`, for a quotient that is scaled by `2 ^ s`. -/
theorem roundRatio_threshold_shift (n d : Nat) (hn : 0 < n) (hd : 0 < d) (M : Nat) (K s : Int)
    (hM1 : 2 ^ 52 < M) (hM2 : M < 2 ^ 53) (hMe : M % 2 = 0) :
    (((2 * M - 1 : Nat) : ℚ) * 2 ^ (K - 1) ≤ (n : ℚ) / d * 2 ^ s →
      (M : ℚ) * 2 ^ K ≤ ((roundRatio n d).1 : ℚ) * 2 ^ ((roundRatio n d).2 + s)) ∧
    ((n : ℚ) / d * 2 ^ s < ((2 * M - 1 : Nat) : ℚ) * 2 ^ (K - 1) →
      ((roundRatio n d).1 : ℚ) * 2 ^ ((roundRatio n d).2 + s) ≤ ((M - 1 : Nat) : ℚ) * 2 ^ K) := by
  have t := roundRatio_threshold n d hn hd M (K - s) hM1 hM2 hMe
  have h2 : (2 : ℚ) ≠ 0 := by norm_num
  have hs := two_zpow_pos s
  have e1 : (2 : ℚ) ^ (K - 1) = 2 ^ (K - s - 1) * 2 ^ s := by
    rw [← zpow_add₀ h2]; congr 1; ring
  have e2 : (2 : ℚ) ^ K = 2 ^ (K - s) * 2 ^ s := by
    rw [← zpow_add₀ h2]; congr 1; ring
  rw [e1, e2, zpow_add₀ h2]
  generalize (2 : ℚ) ^ s = S at *
  constructor
  · intro h
    have h1 : ((2 * M - 1 : Nat) : ℚ) * 2 ^ (K - s - 1) ≤ (n : ℚ) / d := by
      rw [← mul_assoc] at h
      exact le_of_mul_le_mul_right h hs
    have := mul_le_mul_of_nonneg_right (t.1 h1) (le_of_lt hs)
    calc (M : ℚ) * (2 ^ (K - s) * S) = M * 2 ^ (K - s) * S := by ring
      _ ≤ _ := this
      _ = _ := by ring
  · intro h
    have h1 : (n : ℚ) / d < ((2 * M - 1 : Nat) : ℚ) * 2 ^ (K - s - 1) := by
      rw [← mul_assoc] at h
      exact lt_of_mul_lt_mul_right h (le_of_lt hs)
    have := mul_le_mul_of_nonneg_right (t.2 h1) (le_of_lt hs)
    calc ((roundRatio n d).1 : ℚ) * (2 ^ (roundRatio n d).2 * S)
        = (roundRatio n d).1 * 2 ^ (roundRatio n d).2 * S := by ring
      _ ≤ _ := this
      _ = _ := by ring

/-- The rounding of `roundRatio` at most doubles a positive quotient. -/
theorem roundRatio_le_double (n d : Nat) (hn : 0 < n) (hd : 0 < d) (s : Int) :
    ((roundRatio n d).1 : ℚ) * 2 ^ ((roundRatio n d).2 + s) ≤ 2 * ((n : ℚ) / d * 2 ^ s) := by
  obtain ⟨h1, _⟩ := roundRatio_range n d hn hd
  obtain ⟨_, h3⟩ := roundRatio_sig n d hn hd
  have h2 : (2 : ℚ) ≠ 0 := by norm_num
  have hs := two_zpow_pos s
  have hk := two_zpow_pos (roundRatio n d).2
  have hm : ((roundRatio n d).1 : ℚ) ≤ 2 ^ 53 := by exact_mod_cast h3
  rw [zpow_add₀ h2]
  generalize (2 : ℚ) ^ s = S at *
  generalize (2 : ℚ) ^ (roundRatio n d).2 = B at *
  generalize ((roundRatio n d).1 : ℚ) = m at *
  have a1 : m * B ≤ 2 ^ 53 * B := mul_le_mul_of_nonneg_right hm (le_of_lt hk)
  have a2 : m * B ≤ 2 * ((n : ℚ) / d) := by linarith
  calc m * (B * S) = m * B * S := by ring
    _ ≤ 2 * ((n : ℚ) / d) * S := mul_le_mul_of_nonneg_right a2 (le_of_lt hs)
    _ = _ := by ring

/-- The value of `float64(u) / float64(a) * 100` against a threshold `MR * 2 ^ -46`
of the product, through the threshold `MT * 2 ^ -53` of the quotient that the
multiplication by 100 induces. -/
theorem pctBits_threshold (u a : Nat) (hu : 0 < u) (hu2 : u < 2 ^ 53) (ha : 0 < a)
    (ha2 : a < 2 ^ 53) (MR MT : Nat)
    (hR1 : 2 ^ 52 < MR) (hR2 : MR < 2 ^ 53) (hRe : MR % 2 = 0)
    (hT1 : 2 ^ 52 < MT) (hT2 : MT < 2 ^ 53) (hTe : MT % 2 = 0)
    (hN1 : (2 * MR - 1) * 2 ^ 6 ≤ MT * 100)
    (hN2 : (MT - 1) * 100 < (2 * MR - 1) * 2 ^ 6) :
    ((2 * MT - 1) * a ≤ 2 ^ 54 * u →
      (MR : ℚ) * 2 ^ (-46 : Int) ≤ ((pctBits u a).1 : ℚ) * 2 ^ (pctBits u a).2) ∧
    (2 ^ 54 * u < (2 * MT - 1) * a →
      ((pctBits u a).1 : ℚ) * 2 ^ (pctBits u a).2 ≤ ((MR - 1 : Nat) : ℚ) * 2 ^ (-46 : Int)) ∧
    (0 : ℚ) ≤ ((pctBits u a).1 : ℚ) * 2 ^ (pctBits u a).2 ∧
    ((pctBits u a).1 : ℚ) * 2 ^ (pctBits u a).2 ≤ 2 ^ 62 := by
  have su := roundRatio_sig u 1 hu Nat.one_pos
  have sa := roundRatio_sig a 1 ha Nat.one_pos
  have eu := roundRatio_exact u hu hu2
  have ea := roundRatio_exact a ha ha2
  have hb : pctBits u a =
      ((roundRatio ((roundRatio (roundRatio u 1).1 (roundRatio a 1).1).1 *
        7036874417766400) 1).1,
       (roundRatio ((roundRatio (roundRatio u 1).1 (roundRatio a 1).1).1 *
        7036874417766400) 1).2 + ((roundRatio (roundRatio u 1).1 (roundRatio a 1).1).2 +
          (roundRatio u 1).2 - (roundRatio a 1).2) + (-46)) := by
    simp only [pctBits]
  rw [hb]
  clear hb
  generalize roundRatio u 1 = ru at *
  generalize roundRatio a 1 = ra at *
  have hu0 : 0 < ru.1 := lt_of_lt_of_le (by norm_num) su.1
  have ha0 : 0 < ra.1 := lt_of_lt_of_le (by norm_num) sa.1
  have sq := roundRatio_sig _ _ hu0 ha0
  have tq := roundRatio_threshold_shift _ _ hu0 ha0 MT (-53) (ru.2 - ra.2) hT1 hT2 hTe
  have dq := roundRatio_le_double _ _ hu0 ha0 (ru.2 - ra.2)
  generalize roundRatio ru.1 ra.1 = rq at *
  have hq0 : 0 < rq.1 := lt_of_lt_of_le (by norm_num) sq.1
  have hx0 : 0 < rq.1 * 7036874417766400 := Nat.mul_pos hq0 (by norm_num)
  have tp := roundRatio_threshold_shift _ 1 hx0 Nat.one_pos MR (-46)
    (rq.2 + (ru.2 - ra.2) + (-46)) hR1 hR2 hRe
  have dp := roundRatio_le_double _ 1 hx0 Nat.one_pos (rq.2 + (ru.2 - ra.2) + (-46))
  generalize roundRatio (rq.1 * 7036874417766400) 1 = rp at *
  have h2 : (2 : ℚ) ≠ 0 := by norm_num
  have hexp : rp.2 + (rq.2 + ru.2 - ra.2) + (-46) = rp.2 + (rq.2 + (ru.2 - ra.2) + (-46)) := by
    ring
  simp only [hexp]
  -- the quotient of the two exact conversions
  have hua : (ru.1 : ℚ) / (ra.1 : ℚ) * 2 ^ (ru.2 - ra.2) = (u : ℚ) / a := by
    rw [← eu, ← ea, zpow_sub₀ h2]
    have h1 := two_zpow_pos ru.2
    have h3 := two_zpow_pos ra.2
    have h4 : (ra.1 : ℚ) ≠ 0 := by exact_mod_cast (ne_of_gt ha0)
    field_simp
  rw [hua] at tq dq
  -- the product with 100
  have hxp : ((rq.1 * 7036874417766400 : Nat) : ℚ) / ((1 : Nat) : ℚ) *
      2 ^ (rq.2 + (ru.2 - ra.2) + (-46)) = (rq.1 : ℚ) * 2 ^ (rq.2 + (ru.2 - ra.2)) * 100 := by
    rw [zpow_add₀ h2 _ (-46)]
    push_cast
    norm_num
    ring
  rw [hxp] at tp dp
  have hVp0 : (0 : ℚ) ≤ (rp.1 : ℚ) * 2 ^ (rp.2 + (rq.2 + (ru.2 - ra.2) + (-46))) :=
    mul_nonneg (Nat.cast_nonneg _) (le_of_lt (two_zpow_pos _))
  generalize (rp.1 : ℚ) * 2 ^ (rp.2 + (rq.2 + (ru.2 - ra.2) + (-46))) = Vp at *
  generalize (rq.1 : ℚ) * 2 ^ (rq.2 + (ru.2 - ra.2)) = Vq at *
  have haq : (0 : ℚ) < a := by exact_mod_cast ha
  have huq : (0 : ℚ) < u := by exact_mod_cast hu
  have hcT : ((2 * MT - 1 : Nat) : ℚ) = 2 * MT - 1 := by
    rw [Nat.cast_sub (by omega)]; push_cast; ring
  have hcT1 : ((MT - 1 : Nat) : ℚ) = MT - 1 := by
    rw [Nat.cast_sub (by omega)]; push_cast; ring
  have hcR : ((2 * MR - 1 : Nat) : ℚ) = 2 * MR - 1 := by
    rw [Nat.cast_sub (by omega)]; push_cast; ring
  have hcR1 : ((MR - 1 : Nat) : ℚ) = MR - 1 := by
    rw [Nat.cast_sub (by omega)]; push_cast; ring
  have hN1q : (2 * (MR : ℚ) - 1) * 2 ^ 6 ≤ MT * 100 := by
    rw [← hcR]; exact_mod_cast hN1
  have hN2q : ((MT : ℚ) - 1) * 100 < (2 * MR - 1) * 2 ^ 6 := by
    rw [← hcR, ← hcT1]; exact_mod_cast hN2
  have p53 : (2 : ℚ) ^ (-53 : Int) = 1 / 2 ^ 53 := by norm_num
  have p54 : (2 : ℚ) ^ (-53 - 1 : Int) = 1 / 2 ^ 54 := by norm_num
  have p46 : (2 : ℚ) ^ (-46 : Int) = 1 / 2 ^ 46 := by norm_num
  have p47 : (2 : ℚ) ^ (-46 - 1 : Int) = 1 / 2 ^ 47 := by norm_num
  rw [p53, p54, hcT, hcT1] at tq
  rw [p46, p47, hcR, hcR1] at tp
  rw [p46, hcR1]
  refine ⟨?_, ?_, ?_, ?_⟩
  · intro h
    have h1 : (2 * (MT : ℚ) - 1) * (1 / 2 ^ 54) ≤ (u : ℚ) / a := by
      have : (2 * (MT : ℚ) - 1) * a ≤ 2 ^ 54 * u := by
        rw [← hcT]; exact_mod_cast h
      rw [le_div_iff₀ haq]
      linarith
    have h3 := tq.1 h1
    apply tp.1
    linarith
  · intro h
    have h1 : (u : ℚ) / a < (2 * (MT : ℚ) - 1) * (1 / 2 ^ 54) := by
      have : 2 ^ 54 * (u : ℚ) < (2 * (MT : ℚ) - 1) * a := by
        rw [← hcT]; exact_mod_cast h
      rw [div_lt_iff₀ haq]
      linarith
    have h3 := tq.2 h1
    apply tp.2
    linarith
  · exact hVp0
  · have h3 : (u : ℚ) / a ≤ 2 ^ 53 := by
      rw [div_le_iff₀ haq]
      have h31 : (u : ℚ) ≤ 2 ^ 53 := by exact_mod_cast le_of_lt hu2
      have h32 : (1 : ℚ) ≤ a := by exact_mod_cast ha
      nlinarith
    linarith

/-- The percentage of positive amounts below `2 ^ 53` reaches the integer `c`
exactly when the exact quotient reaches the rational threshold
`(2 * MT - 1) / 2 ^ 54` that the two roundings of the `float64` arithmetic
induce. -/
theorem usagePercent_ge_iff (impl : F64 → Int) (u a : Nat) (hu : 0 < u) (hu2 : u < 2 ^ 53)
    (ha : 0 < a) (ha2 : a < 2 ^ 53) (c : Int) (hc : 1 ≤ c) (MR MT : Nat)
    (hR : (MR : ℚ) * 2 ^ (-46 : Int) = (c : ℚ) - 1 / 2)
    (hR1 : 2 ^ 52 < MR) (hR2 : MR < 2 ^ 53) (hRe : MR % 2 = 0)
    (hT1 : 2 ^ 52 < MT) (hT2 : MT < 2 ^ 53) (hTe : MT % 2 = 0)
    (hN1 : (2 * MR - 1) * 2 ^ 6 ≤ MT * 100)
    (hN2 : (MT - 1) * 100 < (2 * MR - 1) * 2 ^ 6) :
    c ≤ usagePercent impl u a ↔ (2 * MT - 1) * a ≤ 2 ^ 54 * u := by
  obtain ⟨t1, t2, b1, b2⟩ :=
    pctBits_threshold u a hu hu2 ha ha2 MR MT hR1 hR2 hRe hT1 hT2 hTe hN1 hN2
  have b1' : -(2 : ℚ) ^ 62 ≤ (((pctBits u a).1 : Int) : ℚ) * 2 ^ (pctBits u a).2 := by
    rw [Int.cast_natCast]; linarith
  have b2' : (((pctBits u a).1 : Int) : ℚ) * 2 ^ (pctBits u a).2 ≤ 2 ^ 62 := by
    rw [Int.cast_natCast]; exact b2
  rw [usagePercent_pos impl u a hu ha,
    toInt_Round_ge impl _ _ c hc b1' b2', ← hR, Int.cast_natCast]
  constructor
  · intro h
    by_contra hlt
    push_neg at hlt
    have h1 := t2 hlt
    have hlt2 : ((MR - 1 : Nat) : ℚ) < MR := by
      have : MR - 1 < MR := by omega
      exact_mod_cast this
    have hp : (0 : ℚ) < 2 ^ (-46 : Int) := two_zpow_pos _
    have := mul_lt_mul_of_pos_right hlt2 hp
    linarith
  · exact t1

/-- The percentage of a zero amount is zero. -/
theorem usagePercent_zero (impl : F64 → Int) (a : Int) (ha : a ≠ 0) :
    usagePercent impl 0 a = 0 := by
  unfold usagePercent
  have h1 : F64.ofInt 0 = .fin 0 0 := by decide
  rw [h1, ofInt_hundred]
  unfold F64.ofInt
  rw [if_neg ha]
  have hm : (if a < 0 then -((roundRatio a.natAbs 1).1 : Int) else (roundRatio a.natAbs 1).1)
      ≠ 0 := by
    have := (roundRatio_sig a.natAbs 1 (Int.natAbs_pos.mpr ha) Nat.one_pos).1
    have h0 : 0 < (roundRatio a.natAbs 1).1 := lt_of_lt_of_le (by norm_num) this
    split_ifs <;> omega
  simp only [F64.div, hm, if_false, if_true, F64.mul, zero_mul, Round, le_refl, F64.toInt]
  rw [if_pos (by decide)]

/-- The percentage of a negative amount that is above `-2 ^ 53`, of a positive
total below `2 ^ 53`, is not positive. -/
theorem usagePercent_neg (impl : F64 → Int) (u a : Nat) (hu : 0 < u) (hu2 : u < 2 ^ 53)
    (ha : 0 < a) (ha2 : a < 2 ^ 53) : usagePercent impl (-(u : Int)) a ≤ 0 := by
  obtain ⟨_, _, b1, b2⟩ :=
    pctBits_threshold u a hu hu2 ha ha2 5664683906301952 7250795400066498 (by norm_num)
      (by norm_num) (by norm_num) (by norm_num) (by norm_num) (by norm_num) (by norm_num)
      (by norm_num)
  have su := (roundRatio_sig u 1 hu Nat.one_pos).1
  have sa := (roundRatio_sig a 1 ha Nat.one_pos).1
  have hu0 : 0 < (roundRatio u 1).1 := lt_of_lt_of_le (by norm_num) su
  have ha0 : 0 < (roundRatio a 1).1 := lt_of_lt_of_le (by norm_num) sa
  have sq := (roundRatio_sig _ _ hu0 ha0).1
  have hq0 : 0 < (roundRatio (roundRatio u 1).1 (roundRatio a 1).1).1 :=
    lt_of_lt_of_le (by norm_num) sq
  have heq : usagePercent impl (-(u : Int)) a =
      F64.toInt impl (Round (.fin (-((pctBits u a).1 : Int)) (pctBits u a).2)) := by
    unfold usagePercent
    rw [ofInt_neg u hu, ofInt_pos a ha, ofInt_hundred]
    have h1 : ¬ (((roundRatio a 1).1 : Int) = 0) := by omega
    have h2 : ¬ (-((roundRatio u 1).1 : Int) = 0) := by omega
    have h3 : (-((roundRatio u 1).1 : Int) < 0) := by omega
    have h4 : ¬ (((roundRatio a 1).1 : Int) < 0) := by omega
    simp only [F64.div, h1, h2, h3, h4, if_false, decide_False, decide_True, if_true,
      Int.natAbs_neg, Int.natAbs_ofNat, Bool.true_bne, Bool.not_false]
    have h5 : ¬ (-((roundRatio (roundRatio u 1).1 (roundRatio a 1).1).1 : Int) *
        7036874417766400 = 0) := by
      have : (0 : Int) < ((roundRatio (roundRatio u 1).1 (roundRatio a 1).1).1 : Int) := by
        omega
      omega
    have h6 : (-((roundRatio (roundRatio u 1).1 (roundRatio a 1).1).1 : Int) *
        7036874417766400 < 0) := by
      have : (0 : Int) < ((roundRatio (roundRatio u 1).1 (roundRatio a 1).1).1 : Int) := by
        omega
      omega
    have h7 : (-((roundRatio (roundRatio u 1).1 (roundRatio a 1).1).1 : Int) *
        7036874417766400).natAbs =
        (roundRatio (roundRatio u 1).1 (roundRatio a 1).1).1 * 7036874417766400 := by
      rw [Int.natAbs_mul, Int.natAbs_neg]; simp
    simp only [F64.mul, h5, h6, if_false, if_true, h7, pctBits]
  rw [heq]
  have key := toInt_Round_ge impl (-((pctBits u a).1 : Int)) (pctBits u a).2 1 le_rfl
    (by push_cast; linarith) (by push_cast; linarith [show (0 : ℚ) ≤ 2 ^ 62 by norm_num])
  by_contra hc
  push_neg at hc
  have h1 := key.mp (by omega)
  push_cast at h1
  linarith

/-- When the percentage of the spec reaches a positive integer `c`, for a
positive total. -/
theorem exactPercent_ge_iff (u a c : Int) (ha : 0 < a) (hc : 1 ≤ c) :
    c ≤ exactPercent u a ↔ (2 * c - 1) * a ≤ 200 * u := by
  unfold exactPercent
  have hna : ¬ (a < 0) := by omega
  have had : ((a.natAbs : Nat) : Int) = a := Int.natAbs_of_nonneg (le_of_lt ha)
  have hapos : 0 < a.natAbs := Int.natAbs_pos.mpr (by omega)
  rcases lt_or_le u 0 with hu | hu
  · have hq : (0 : Int) ≤ (((2 * (u * 100).natAbs + a.natAbs) / (2 * a.natAbs) : Nat) : Int) :=
      Int.ofNat_nonneg _
    simp only [hu, hna, decide_True, decide_False, Bool.true_bne, Bool.not_false, if_true]
    constructor
    · intro h; omega
    · intro h
      have : 0 < (2 * c - 1) * a := mul_pos (by omega) ha
      omega
  · have hnu : ¬ (u < 0) := by omega
    simp only [hnu, hna, decide_False, bne_self_eq_false, Bool.false_eq_true, if_false]
    obtain ⟨A, rfl⟩ := Int.eq_ofNat_of_zero_le (le_of_lt ha)
    obtain ⟨U, rfl⟩ := Int.eq_ofNat_of_zero_le hu
    obtain ⟨C, rfl⟩ := Int.eq_ofNat_of_zero_le (show 0 ≤ c by omega)
    have e1 : ((U : Int) * 100).natAbs = U * 100 := by
      rw [Int.natAbs_mul, Int.natAbs_ofNat]; rfl
    rw [e1, Int.natAbs_ofNat, Nat.cast_le, Nat.le_div_iff_mul_le (by omega)]
    have hC : 1 ≤ C := by omega
    constructor
    · intro h
      have h2 : ((C * (2 * A) : Nat) : Int) ≤ ((2 * (U * 100) + A : Nat) : Int) := by
        exact_mod_cast h
      push_cast at h2
      nlinarith
    · intro h
      have h2 : ((C * (2 * A) : Nat) : Int) ≤ ((2 * (U * 100) + A : Nat) : Int) := by
        push_cast
        nlinarith
      exact_mod_cast h2

/-- The threshold of `usagePercent` for integers of either sign. -/
theorem usagePercent_ge_iff_int (impl : F64 → Int) (u a : Int) (ha : 0 < a) (ha2 : a < 2 ^ 53)
    (hu1 : -(2 ^ 53) < u) (hu2 : u < 2 ^ 53) (c : Int) (hc : 1 ≤ c) (MR MT : Nat)
    (hR : (MR : ℚ) * 2 ^ (-46 : Int) = (c : ℚ) - 1 / 2)
    (hR1 : 2 ^ 52 < MR) (hR2 : MR < 2 ^ 53) (hRe : MR % 2 = 0)
    (hT1 : 2 ^ 52 < MT) (hT2 : MT < 2 ^ 53) (hTe : MT % 2 = 0)
    (hN1 : (2 * MR - 1) * 2 ^ 6 ≤ MT * 100)
    (hN2 : (MT - 1) * 100 < (2 * MR - 1) * 2 ^ 6) :
    c ≤ usagePercent impl u a ↔ (2 * (MT : Int) - 1) * a ≤ 2 ^ 54 * u := by
  have hat : ((a.toNat : Nat) : Int) = a := Int.toNat_of_nonneg (le_of_lt ha)
  have ha' : 0 < a.toNat := by omega
  have ha2' : a.toNat < 2 ^ 53 := by omega
  have hMT : (0 : Int) < 2 * (MT : Int) - 1 := by omega
  rcases lt_trichotomy u 0 with hneg | hzero | hpos
  · have hut : ((((-u).toNat : Nat)) : Int) = -u := Int.toNat_of_nonneg (by omega)
    have h := usagePercent_neg impl (-u).toNat a.toNat (by omega) (by omega) ha' ha2'
    rw [hut, hat, neg_neg] at h
    constructor
    · intro h1; omega
    · intro h1
      have : 0 < (2 * (MT : Int) - 1) * a := mul_pos hMT ha
      omega
  · subst hzero
    rw [usagePercent_zero impl a (by omega)]
    constructor
    · intro h1; omega
    · intro h1
      have : 0 < (2 * (MT : Int) - 1) * a := mul_pos hMT ha
      omega
  · have hut : ((u.toNat : Nat) : Int) = u := Int.toNat_of_nonneg (le_of_lt hpos)
    have h := usagePercent_ge_iff impl u.toNat a.toNat (by omega) (by omega) ha' ha2' c hc MR MT
      hR hR1 hR2 hRe hT1 hT2 hTe hN1 hN2
    rw [hut, hat] at h
    rw [h, ← hut, ← hat]
    have e : ((2 * MT - 1 : Nat) : Int) = 2 * (MT : Int) - 1 := by
      rw [Nat.cast_sub (by omega)]; push_cast; ring
    rw [← e]
    exact_mod_cast Iff.rfl

/-- The memory rule: for a total of at most 42486788937457 bytes and an amount
below `2 ^ 53` in absolute value, the `float64` percentage exceeds 80 exactly
when the percentage of the spec does. -/
theorem usagePercent_gt80_iff (impl : F64 → Int) (u a : Int) (ha : 0 < a)
    (ha2 : a ≤ 42486788937457) (hu1 : -(2 ^ 53) < u) (hu2 : u < 2 ^ 53) :
    80 < usagePercent impl u a ↔ 80 < exactPercent u a := by
  have h := usagePercent_ge_iff_int impl u a ha (by omega) hu1 hu2 81 (by norm_num)
    5664683906301952 7250795400066498 (by norm_num) (by norm_num) (by norm_num) (by norm_num)
    (by norm_num) (by norm_num) (by norm_num) (by norm_num) (by norm_num)
  have h2 := exactPercent_ge_iff u a 81 ha (by norm_num)
  rw [show (80 < usagePercent impl u a) ↔ (81 ≤ usagePercent impl u a) from Iff.rfl, h,
    show (80 < exactPercent u a) ↔ (81 ≤ exactPercent u a) from Iff.rfl, h2]
  push_cast
  constructor <;> intro h3 <;> omega

/-- The disk and network rules: for a total of at most 173215370283480 and an
amount below `2 ^ 53` in absolute value, the `float64` percentage exceeds 90
exactly when the percentage of the spec does. -/
theorem usagePercent_gt90_iff (impl : F64 → Int) (u a : Int) (ha : 0 < a)
    (ha2 : a ≤ 173215370283480) (hu1 : -(2 ^ 53) < u) (hu2 : u < 2 ^ 53) :
    90 < usagePercent impl u a ↔ 90 < exactPercent u a := by
  have h := usagePercent_ge_iff_int impl u a ha (by omega) hu1 hu2 91 (by norm_num)
    6368371348078592 8151515325540598 (by norm_num) (by norm_num) (by norm_num) (by norm_num)
    (by norm_num) (by norm_num) (by norm_num) (by norm_num) (by norm_num)
  have h2 := exactPercent_ge_iff u a 91 ha (by norm_num)
  rw [show (90 < usagePercent impl u a) ↔ (91 ≤ usagePercent impl u a) from Iff.rfl, h,
    show (90 < exactPercent u a) ↔ (91 ≤ exactPercent u a) from Iff.rfl, h2]
  push_cast
  constructor <;> intro h3 <;> omega

/-! ## The output of `checkServerStat` -/

/-- The output of `checkServerStat` is the concatenation of what the four rules
print. -/
theorem checkServerStat_eq (impl : F64 → Int) (stat : serverStat) :
    checkServerStat impl stat =
      (if stat.CurrentLA > 30 then
        ["Load Average is too high: " ++ fmtInt stat.CurrentLA ++ "\n"] else []) ++
      ((if usagePercent impl stat.MemBytesUsed stat.MemBytesAvailable > 80 then
        ["Memory usage is too high: " ++
          fmtInt (usagePercent impl stat.MemBytesUsed stat.MemBytesAvailable) ++ "% \n"]
        else []) ++
      ((if usagePercent impl stat.DiskBytesUsed stat.DiskBytesAvailable > 90 then
        ["Free disk space is too low: " ++
          fmtInt (Int.tdiv (wrap64 (stat.DiskBytesAvailable - stat.DiskBytesUsed)) unitMb) ++
          " Mb left\n"]
        else []) ++
      (if usagePercent impl stat.NetBandwidthUsed stat.NetBandwidthAvailable > 90 then
        ["Network bandwidth usage high: " ++
          fmtInt (Int.tdiv (wrap64 (stat.NetBandwidthAvailable - stat.NetBandwidthUsed))
            unitMbps) ++
          " Mbit/s available\n"]
        else []))) := by
  unfold checkServerStat
  simp only
  split_ifs <;> simp

theorem startsWith_append (p x y : String) : startsWith p (p ++ x ++ y) = true := by
  unfold startsWith
  rw [String.data_append, String.data_append, List.append_assoc]
  exact List.isPrefixOf_iff_prefix.mpr (List.prefix_append _ _)

theorem startsWith_of_head_ne (p q x y : String) (c d : Char) (hp : p.data.head? = some c)
    (hq : q.data.head? = some d) (hne : c ≠ d) : startsWith p (q ++ x ++ y) = false := by
  unfold startsWith
  rw [String.data_append, String.data_append, List.append_assoc]
  cases hpd : p.data with
  | nil => rw [hpd] at hp; simp at hp
  | cons a as =>
    cases hqd : q.data with
    | nil => rw [hqd] at hq; simp at hq
    | cons b bs =>
      rw [hpd] at hp; rw [hqd] at hq
      simp only [List.head?_cons, Option.some.injEq] at hp hq
      subst hp; subst hq
      simp [List.isPrefixOf, hne]

theorem load_mem (x y : String) : startsWith "Load Average is too high: "
    ("Memory usage is too high: " ++ x ++ y) = false :=
  startsWith_of_head_ne _ _ x y 'L' 'M' rfl rfl (by decide)

theorem load_disk (x y : String) : startsWith "Load Average is too high: "
    ("Free disk space is too low: " ++ x ++ y) = false :=
  startsWith_of_head_ne _ _ x y 'L' 'F' rfl rfl (by decide)

theorem load_net (x y : String) : startsWith "Load Average is too high: "
    ("Network bandwidth usage high: " ++ x ++ y) = false :=
  startsWith_of_head_ne _ _ x y 'L' 'N' rfl rfl (by decide)

theorem mem_load (x y : String) : startsWith "Memory usage is too high: "
    ("Load Average is too high: " ++ x ++ y) = false :=
  startsWith_of_head_ne _ _ x y 'M' 'L' rfl rfl (by decide)

theorem mem_disk (x y : String) : startsWith "Memory usage is too high: "
    ("Free disk space is too low: " ++ x ++ y) = false :=
  startsWith_of_head_ne _ _ x y 'M' 'F' rfl rfl (by decide)

theorem mem_net (x y : String) : startsWith "Memory usage is too high: "
    ("Network bandwidth usage high: " ++ x ++ y) = false :=
  startsWith_of_head_ne _ _ x y 'M' 'N' rfl rfl (by decide)

theorem disk_load (x y : String) : startsWith "Free disk space is too low: "
    ("Load Average is too high: " ++ x ++ y) = false :=
  startsWith_of_head_ne _ _ x y 'F' 'L' rfl rfl (by decide)

theorem disk_mem (x y : String) : startsWith "Free disk space is too low: "
    ("Memory usage is too high: " ++ x ++ y) = false :=
  startsWith_of_head_ne _ _ x y 'F' 'M' rfl rfl (by decide)

theorem disk_net (x y : String) : startsWith "Free disk space is too low: "
    ("Network bandwidth usage high: " ++ x ++ y) = false :=
  startsWith_of_head_ne _ _ x y 'F' 'N' rfl rfl (by decide)

theorem net_load (x y : String) : startsWith "Network bandwidth usage high: "
    ("Load Average is too high: " ++ x ++ y) = false :=
  startsWith_of_head_ne _ _ x y 'N' 'L' rfl rfl (by decide)

theorem net_mem (x y : String) : startsWith "Network bandwidth usage high: "
    ("Memory usage is too high: " ++ x ++ y) = false :=
  startsWith_of_head_ne _ _ x y 'N' 'M' rfl rfl (by decide)

theorem net_disk (x y : String) : startsWith "Network bandwidth usage high: "
    ("Free disk space is too low: " ++ x ++ y) = false :=
  startsWith_of_head_ne _ _ x y 'N' 'F' rfl rfl (by decide)

/-- What `checkServerStat` prints for the load rule. -/
theorem filter_load (impl : F64 → Int) (stat : serverStat) :
    (checkServerStat impl stat).filter (startsWith "Load Average is too high: ") =
      if stat.CurrentLA > 30 then
        ["Load Average is too high: " ++ fmtInt stat.CurrentLA ++ "\n"] else [] := by
  rw [checkServerStat_eq]
  simp only [List.filter_append]
  split_ifs <;> simp [List.filter, startsWith_append, load_mem, load_disk, load_net]

/-- What `checkServerStat` prints for the memory rule. -/
theorem filter_mem (impl : F64 → Int) (stat : serverStat) :
    (checkServerStat impl stat).filter (startsWith "Memory usage is too high: ") =
      if usagePercent impl stat.MemBytesUsed stat.MemBytesAvailable > 80 then
        ["Memory usage is too high: " ++
          fmtInt (usagePercent impl stat.MemBytesUsed stat.MemBytesAvailable) ++ "% \n"]
      else [] := by
  rw [checkServerStat_eq]
  simp only [List.filter_append]
  split_ifs <;> simp [List.filter, startsWith_append, mem_load, mem_disk, mem_net]

/-- What `checkServerStat` prints for the disk rule. -/
theorem filter_disk (impl : F64 → Int) (stat : serverStat) :
    (checkServerStat impl stat).filter (startsWith "Free disk space is too low: ") =
      if usagePercent impl stat.DiskBytesUsed stat.DiskBytesAvailable > 90 then
        ["Free disk space is too low: " ++
          fmtInt (Int.tdiv (wrap64 (stat.DiskBytesAvailable - stat.DiskBytesUsed)) unitMb) ++
          " Mb left\n"]
      else [] := by
  rw [checkServerStat_eq]
  simp only [List.filter_append]
  split_ifs <;> simp [List.filter, startsWith_append, disk_load, disk_mem, disk_net]

/-- What `checkServerStat` prints for the network rule. -/
theorem filter_net (impl : F64 → Int) (stat : serverStat) :
    (checkServerStat impl stat).filter (startsWith "Network bandwidth usage high: ") =
      if usagePercent impl stat.NetBandwidthUsed stat.NetBandwidthAvailable > 90 then
        ["Network bandwidth usage high: " ++
          fmtInt (Int.tdiv (wrap64 (stat.NetBandwidthAvailable - stat.NetBandwidthUsed))
            unitMbps) ++
          " Mbit/s available\n"]
      else [] := by
  rw [checkServerStat_eq]
  simp only [List.filter_append]
  split_ifs <;> simp [List.filter, startsWith_append, net_load, net_mem, net_disk]

theorem sublist_ite_cons {α : Type} (c : Prop) [Decidable c] (x : α) (l l' : List α)
    (h : List.Sublist l l') : List.Sublist ((if c then [x] else []) ++ l) (x :: l') := by
  split_ifs
  · exact List.Sublist.cons₂ x h
  · exact List.Sublist.cons x h

theorem length_ite_le {α : Type} (c : Prop) [Decidable c] (x : α) :
    (if c then [x] else []).length ≤ 1 := by
  split_ifs <;> simp

/-! ## The rules of `checkServerStat` -/

/-- C5. Load rule of `checkServerStat`: among the texts that are printed, those
that start with "Load Average is too high: " are exactly one line
"Load Average is too high: N" with `N` the decimal `CurrentLA` when
`CurrentLA > 30`, and none otherwise; with the load 30 no load line is
printed, with the load 31 the line "Load Average is too high: 31" is. -/
theorem load_rule (impl : F64 → Int) (stat : serverStat) :
    (checkServerStat impl stat).filter (startsWith "Load Average is too high: ") =
      (if stat.CurrentLA > 30 then
        ["Load Average is too high: " ++ fmtInt stat.CurrentLA ++ "\n"] else []) ∧
    (checkServerStat impl { stat with CurrentLA := 30 }).filter
      (startsWith "Load Average is too high: ") = [] ∧
    (checkServerStat impl { stat with CurrentLA := 31 }).filter
      (startsWith "Load Average is too high: ") = ["Load Average is too high: 31\n"] := by
  refine ⟨filter_load impl stat, ?_, ?_⟩
  · rw [filter_load]; rfl
  · rw [filter_load]
    show (if (31 : Int) > 30 then ["Load Average is too high: " ++ fmtInt 31 ++ "\n"] else []) =
      ["Load Average is too high: 31\n"]
    decide

set_option maxRecDepth 100000 in
/-- C6, as stated, fails: with 42486788937641 bytes of memory of which
34201865094801 are used, the exact percentage is below 80.5 (it rounds to 80,
and `200 * used < 161 * available`), but the `float64` quotient times 100 is
80.5 and the memory alert is printed with 81; and with 1 byte of which `2 ^ 62`
are used, the percentage does not fit an `int` and, with the conversion of
amd64, no alert is printed although `200 * used ≥ 161 * available`. -/
theorem memory_rule_counterexample :
    ((0 : Int) < 42486788937641 ∧ (0 : Int) ≤ 34201865094801 ∧
      (checkServerStat implAmd64 ⟨0, 42486788937641, 34201865094801, 1, 0, 1, 0⟩).filter
        (startsWith "Memory usage is too high: ") = ["Memory usage is too high: 81% \n"] ∧
      exactPercent 34201865094801 42486788937641 = 80 ∧
      ¬ ((200 : Int) * 34201865094801 ≥ 161 * 42486788937641)) ∧
    ((0 : Int) < 1 ∧ (0 : Int) ≤ 2 ^ 62 ∧
      (checkServerStat implAmd64 ⟨0, 1, 2 ^ 62, 1, 0, 1, 0⟩).filter
        (startsWith "Memory usage is too high: ") = [] ∧
      80 < exactPercent (2 ^ 62) 1 ∧ (200 : Int) * 2 ^ 62 ≥ 161 * 1) := by
  decide

/-- C6, amended. For every snapshot with `0 < MemBytesAvailable ≤ 42486788937457`
and `0 ≤ MemBytesUsed < 2 ^ 53`, the memory alert is printed if and only if the
exact percentage `MemBytesUsed / MemBytesAvailable * 100`, rounded half away
from zero, exceeds 80, which is if and only if
`200 * MemBytesUsed ≥ 161 * MemBytesAvailable`. -/
theorem memory_rule_bounded (impl : F64 → Int) (stat : serverStat)
    (ha : 0 < stat.MemBytesAvailable) (ha2 : stat.MemBytesAvailable ≤ 42486788937457)
    (hu : 0 ≤ stat.MemBytesUsed) (hu2 : stat.MemBytesUsed < 2 ^ 53) :
    ((∃ w, w ∈ checkServerStat impl stat ∧ startsWith "Memory usage is too high: " w = true) ↔
      80 < exactPercent stat.MemBytesUsed stat.MemBytesAvailable) ∧
    (80 < exactPercent stat.MemBytesUsed stat.MemBytesAvailable ↔
      200 * stat.MemBytesUsed ≥ 161 * stat.MemBytesAvailable) := by
  have h1 := usagePercent_gt80_iff impl stat.MemBytesUsed stat.MemBytesAvailable ha ha2
    (by omega) hu2
  have h2 := exactPercent_ge_iff stat.MemBytesUsed stat.MemBytesAvailable 81 ha (by norm_num)
  constructor
  · rw [← h1]
    have hf := filter_mem impl stat
    constructor
    · rintro ⟨w, hw, hs⟩
      by_contra hc
      have hmem : w ∈ (checkServerStat impl stat).filter
          (startsWith "Memory usage is too high: ") := List.mem_filter.mpr ⟨hw, hs⟩
      rw [hf, if_neg hc] at hmem
      exact absurd hmem (List.not_mem_nil _)
    · intro hc
      have hgt : usagePercent impl stat.MemBytesUsed stat.MemBytesAvailable > 80 := hc
      rw [if_pos hgt] at hf
      have hmem : ("Memory usage is too high: " ++
          fmtInt (usagePercent impl stat.MemBytesUsed stat.MemBytesAvailable) ++ "% \n") ∈
          (checkServerStat impl stat).filter (startsWith "Memory usage is too high: ") := by
        rw [hf]; exact List.mem_singleton.mpr rfl
      obtain ⟨hw, hs⟩ := List.mem_filter.mp hmem
      exact ⟨_, hw, hs⟩
  · rw [show (80 < exactPercent stat.MemBytesUsed stat.MemBytesAvailable) ↔
      (81 ≤ exactPercent stat.MemBytesUsed stat.MemBytesAvailable) from Iff.rfl, h2]
    constructor <;> intro h <;> omega

set_option maxRecDepth 100000 in
/-- Witness of C6, amended: 161 bytes used of 200 are exactly 80.5 %, which
rounds to 81: the alert is printed; 801 of 1000 are 80.1 %: it is not. -/
theorem memory_rule_bounded_witness :
    ((0 : Int) < 200 ∧ (200 : Int) ≤ 42486788937457 ∧ (0 : Int) ≤ 161 ∧ (161 : Int) < 2 ^ 53) ∧
    (((∃ w, w ∈ checkServerStat implAmd64 ⟨0, 200, 161, 1, 0, 1, 0⟩ ∧
        startsWith "Memory usage is too high: " w = true) ↔
      80 < exactPercent 161 200) ∧
    (80 < exactPercent 161 200 ↔ (200 : Int) * 161 ≥ 161 * 200)) ∧
    checkServerStat implAmd64 ⟨0, 200, 161, 1, 0, 1, 0⟩ = ["Memory usage is too high: 81% \n"] ∧
    checkServerStat implAmd64 ⟨0, 1000, 801, 1, 0, 1, 0⟩ = [] :=
  ⟨by decide,
    memory_rule_bounded implAmd64 ⟨0, 200, 161, 1, 0, 1, 0⟩ (by decide) (by decide)
      (by decide) (by decide),
    by decide, by decide⟩

set_option maxRecDepth 100000 in
/-- C7, at the snapshot with 850 bytes of memory used of 1000: the text that
`checkServerStat` prints is "Memory usage is too high: 85% " followed by the
end of the line; a space follows the percent sign. -/
theorem memory_line_text :
    checkServerStat implAmd64 ⟨0, 1000, 850, 1, 0, 1, 0⟩ =
      ["Memory usage is too high: 85% \n"] ∧
    checkServerStat implAmd64 ⟨0, 1000, 850, 1, 0, 1, 0⟩ ≠
      ["Memory usage is too high: 85%\n"] := by
  decide

theorem wrap64_sub (a u : Int) (ha : 0 < a) (ha2 : a < 2 ^ 53) (hu1 : -(2 ^ 53) < u)
    (hu2 : u < 2 ^ 53) : wrap64 (a - u) = a - u := by
  apply wrap64_of_inInt
  unfold InInt minInt maxInt
  constructor <;> omega

set_option maxRecDepth 100000 in
/-- C8, as stated, fails: with a disk of 1 byte of which `2 ^ 62` are used, the
percentage (about `4.6e20`) exceeds 90 but does not fit an `int`, and with the
conversion of amd64 no alert is printed; and with a disk of 173215370283621
bytes of which 156759910106677 are used, the exact percentage is below 90.5 (it
rounds to 90), but the `float64` quotient times 100 is 90.5 and the disk alert
is printed. -/
theorem disk_rule_counterexample :
    ((0 : Int) < 1 ∧
      (checkServerStat implAmd64 ⟨0, 1, 0, 1, 2 ^ 62, 1, 0⟩).filter
        (startsWith "Free disk space is too low: ") = [] ∧
      90 < exactPercent (2 ^ 62) 1) ∧
    ((0 : Int) < 173215370283621 ∧
      (checkServerStat implAmd64 ⟨0, 1, 0, 173215370283621, 156759910106677, 1, 0⟩).filter
        (startsWith "Free disk space is too low: ") =
        ["Free disk space is too low: 15693149 Mb left\n"] ∧
      exactPercent 156759910106677 173215370283621 = 90) := by
  decide

/-- C8, amended. For every snapshot with `0 < DiskBytesAvailable ≤ 173215370283480`
and `DiskBytesUsed` between `-2 ^ 53` and `2 ^ 53`, the texts printed that start
with "Free disk space is too low: " are: the one line
"Free disk space is too low: F Mb left" when the exact percentage
`DiskBytesUsed / DiskBytesAvailable * 100`, rounded half away from zero, exceeds
90, with `F = (DiskBytesAvailable - DiskBytesUsed) / 1048576` truncated toward
zero (also when the difference is negative); and none otherwise. -/
theorem disk_rule_bounded (impl : F64 → Int) (stat : serverStat)
    (ha : 0 < stat.DiskBytesAvailable) (ha2 : stat.DiskBytesAvailable ≤ 173215370283480)
    (hu1 : -(2 ^ 53) < stat.DiskBytesUsed) (hu2 : stat.DiskBytesUsed < 2 ^ 53) :
    (checkServerStat impl stat).filter (startsWith "Free disk space is too low: ") =
      if 90 < exactPercent stat.DiskBytesUsed stat.DiskBytesAvailable then
        ["Free disk space is too low: " ++
          fmtInt (Int.tdiv (stat.DiskBytesAvailable - stat.DiskBytesUsed) 1048576) ++
          " Mb left\n"]
      else [] := by
  have h1 := usagePercent_gt90_iff impl stat.DiskBytesUsed stat.DiskBytesAvailable ha ha2 hu1 hu2
  have hw := wrap64_sub stat.DiskBytesAvailable stat.DiskBytesUsed ha (by omega) hu1 hu2
  have hm : unitMb = 1048576 := by decide
  rw [filter_disk, hw, hm]
  by_cases hc : 90 < exactPercent stat.DiskBytesUsed stat.DiskBytesAvailable
  · rw [if_pos hc, if_pos (h1.mpr hc)]
  · rw [if_neg hc, if_neg (fun h => hc (h1.mp h))]

set_option maxRecDepth 100000 in
/-- Witness of C8, amended: a disk of 1048576 bytes of which 2621440 are used;
the difference is -1572864 bytes and the line reports -1 Mb, not -2. -/
theorem disk_rule_bounded_witness :
    ((0 : Int) < 1048576 ∧ (1048576 : Int) ≤ 173215370283480 ∧ -(2 ^ 53) < (2621440 : Int) ∧
      (2621440 : Int) < 2 ^ 53) ∧
    (checkServerStat implAmd64 ⟨0, 1, 0, 1048576, 2621440, 1, 0⟩).filter
        (startsWith "Free disk space is too low: ") =
      (if 90 < exactPercent 2621440 1048576 then
        ["Free disk space is too low: " ++ fmtInt (Int.tdiv (1048576 - 2621440) 1048576) ++
          " Mb left\n"]
      else []) ∧
    (1048576 - 2621440 : Int) = -1572864 ∧
    checkServerStat implAmd64 ⟨0, 1, 0, 1048576, 2621440, 1, 0⟩ =
      ["Free disk space is too low: -1 Mb left\n"] :=
  ⟨by decide,
    disk_rule_bounded implAmd64 ⟨0, 1, 0, 1048576, 2621440, 1, 0⟩ (by decide) (by decide)
      (by decide) (by decide),
    by decide, by decide⟩

set_option maxRecDepth 100000 in
/-- C9, as stated, fails: with a bandwidth of 1 of which `2 ^ 62` is used, the
percentage (about `4.6e20`) exceeds 90 but does not fit an `int`, and with the
conversion of amd64 no alert is printed; and with a bandwidth of
173215370283621 of which 156759910106677 is used, the exact percentage is below
90.5 (it rounds to 90), but the `float64` quotient times 100 is 90.5 and the
network alert is printed. -/
theorem net_rule_counterexample :
    ((0 : Int) < 1 ∧
      (checkServerStat implAmd64 ⟨0, 1, 0, 1, 0, 1, 2 ^ 62⟩).filter
        (startsWith "Network bandwidth usage high: ") = [] ∧
      90 < exactPercent (2 ^ 62) 1) ∧
    ((0 : Int) < 173215370283621 ∧
      (checkServerStat implAmd64 ⟨0, 1, 0, 1, 0, 173215370283621, 156759910106677⟩).filter
        (startsWith "Network bandwidth usage high: ") =
        ["Network bandwidth usage high: 16455460 Mbit/s available\n"] ∧
      exactPercent 156759910106677 173215370283621 = 90) := by
  decide

/-- C9, amended. For every snapshot with
`0 < NetBandwidthAvailable ≤ 173215370283480` and `NetBandwidthUsed` between
`-2 ^ 53` and `2 ^ 53`, the texts printed that start with
"Network bandwidth usage high: " are: the one line
"Network bandwidth usage high: F Mbit/s available" when the exact percentage
`NetBandwidthUsed / NetBandwidthAvailable * 100`, rounded half away from zero,
exceeds 90, with `F = (NetBandwidthAvailable - NetBandwidthUsed) / 1000000`
truncated toward zero (the decimal divisor, an integer division); and none
otherwise. -/
theorem net_rule_bounded (impl : F64 → Int) (stat : serverStat)
    (ha : 0 < stat.NetBandwidthAvailable) (ha2 : stat.NetBandwidthAvailable ≤ 173215370283480)
    (hu1 : -(2 ^ 53) < stat.NetBandwidthUsed) (hu2 : stat.NetBandwidthUsed < 2 ^ 53) :
    (checkServerStat impl stat).filter (startsWith "Network bandwidth usage high: ") =
      if 90 < exactPercent stat.NetBandwidthUsed stat.NetBandwidthAvailable then
        ["Network bandwidth usage high: " ++
          fmtInt (Int.tdiv (stat.NetBandwidthAvailable - stat.NetBandwidthUsed) 1000000) ++
          " Mbit/s available\n"]
      else [] := by
  have h1 := usagePercent_gt90_iff impl stat.NetBandwidthUsed stat.NetBandwidthAvailable ha ha2
    hu1 hu2
  have hw := wrap64_sub stat.NetBandwidthAvailable stat.NetBandwidthUsed ha (by omega) hu1 hu2
  have hm : unitMbps = 1000000 := by decide
  rw [filter_net, hw, hm]
  by_cases hc : 90 < exactPercent stat.NetBandwidthUsed stat.NetBandwidthAvailable
  · rw [if_pos hc, if_pos (h1.mpr hc)]
  · rw [if_neg hc, if_neg (fun h => hc (h1.mp h))]

set_option maxRecDepth 100000 in
/-- Witness of C9, amended: a bandwidth of 1000000 of which 950000 is used gives
"Network bandwidth usage high: 0 Mbit/s available". -/
theorem net_rule_bounded_witness :
    ((0 : Int) < 1000000 ∧ (1000000 : Int) ≤ 173215370283480 ∧ -(2 ^ 53) < (950000 : Int) ∧
      (950000 : Int) < 2 ^ 53) ∧
    (checkServerStat implAmd64 ⟨0, 1, 0, 1, 0, 1000000, 950000⟩).filter
        (startsWith "Network bandwidth usage high: ") =
      (if 90 < exactPercent 950000 1000000 then
        ["Network bandwidth usage high: " ++ fmtInt (Int.tdiv (1000000 - 950000) 1000000) ++
          " Mbit/s available\n"]
      else []) ∧
    checkServerStat implAmd64 ⟨0, 1, 0, 1, 0, 1000000, 950000⟩ =
      ["Network bandwidth usage high: 0 Mbit/s available\n"] :=
  ⟨by decide,
    net_rule_bounded implAmd64 ⟨0, 1, 0, 1, 0, 1000000, 950000⟩ (by decide) (by decide)
      (by decide) (by decide),
    by decide⟩

/-- C10. Order and length of the alerts: what `checkServerStat` prints is a
subsequence of the load line, the memory line, the disk line and the network
line, in this order; it has at most four texts, and at most one of each of the
four kinds. -/
theorem alerts_order (impl : F64 → Int) (stat : serverStat) :
    List.Sublist (checkServerStat impl stat)
      ["Load Average is too high: " ++ fmtInt stat.CurrentLA ++ "\n",
       "Memory usage is too high: " ++
          fmtInt (usagePercent impl stat.MemBytesUsed stat.MemBytesAvailable) ++ "% \n",
       "Free disk space is too low: " ++
          fmtInt (Int.tdiv (wrap64 (stat.DiskBytesAvailable - stat.DiskBytesUsed)) unitMb) ++
          " Mb left\n",
       "Network bandwidth usage high: " ++
          fmtInt (Int.tdiv (wrap64 (stat.NetBandwidthAvailable - stat.NetBandwidthUsed))
            unitMbps) ++ " Mbit/s available\n"] ∧
    (checkServerStat impl stat).length ≤ 4 ∧
    ((checkServerStat impl stat).filter (startsWith "Load Average is too high: ")).length ≤ 1 ∧
    ((checkServerStat impl stat).filter (startsWith "Memory usage is too high: ")).length ≤ 1 ∧
    ((checkServerStat impl stat).filter (startsWith "Free disk space is too low: ")).length ≤ 1 ∧
    ((checkServerStat impl stat).filter
      (startsWith "Network bandwidth usage high: ")).length ≤ 1 := by
  have hsub : List.Sublist (checkServerStat impl stat)
      ["Load Average is too high: " ++ fmtInt stat.CurrentLA ++ "\n",
       "Memory usage is too high: " ++
          fmtInt (usagePercent impl stat.MemBytesUsed stat.MemBytesAvailable) ++ "% \n",
       "Free disk space is too low: " ++
          fmtInt (Int.tdiv (wrap64 (stat.DiskBytesAvailable - stat.DiskBytesUsed)) unitMb) ++
          " Mb left\n",
       "Network bandwidth usage high: " ++
          fmtInt (Int.tdiv (wrap64 (stat.NetBandwidthAvailable - stat.NetBandwidthUsed))
            unitMbps) ++ " Mbit/s available\n"] := by
    rw [checkServerStat_eq]
    apply sublist_ite_cons
    apply sublist_ite_cons
    apply sublist_ite_cons
    have := sublist_ite_cons (usagePercent impl stat.NetBandwidthUsed
      stat.NetBandwidthAvailable > 90) ("Network bandwidth usage high: " ++
          fmtInt (Int.tdiv (wrap64 (stat.NetBandwidthAvailable - stat.NetBandwidthUsed))
            unitMbps) ++ " Mbit/s available\n") [] [] (List.Sublist.refl _)
    simpa using this
  refine ⟨hsub, ?_, ?_, ?_, ?_, ?_⟩
  · simpa using hsub.length_le
  · rw [filter_load]; exact length_ite_le _ _
  · rw [filter_mem]; exact length_ite_le _ _
  · rw [filter_disk]; exact length_ite_le _ _
  · rw [filter_net]; exact length_ite_le _ _

/-! ## The run of `checkServerStat` -/

theorem wrap64_inInt (v : Int) : InInt (wrap64 v) := by
  unfold InInt minInt maxInt wrap64
  have h1 := Int.emod_nonneg (v + 2 ^ 63) (show (2 : Int) ^ 64 ≠ 0 by norm_num)
  have h2 := Int.emod_lt_of_pos (v + 2 ^ 63) (show (0 : Int) < 2 ^ 64 by norm_num)
  constructor <;> omega

theorem tdiv_inInt (x y : Int) (hx : InInt x) (hy : 0 < y) : InInt (Int.tdiv x y) := by
  unfold InInt minInt maxInt at *
  rcases le_or_lt 0 x with h | h
  · rw [Int.tdiv_eq_ediv h (le_of_lt hy)]
    have h1 : 0 ≤ x / y := Int.ediv_nonneg h (le_of_lt hy)
    have h2 : x / y ≤ x := Int.ediv_le_self y h
    constructor <;> omega
  · have e : Int.tdiv x y = -(Int.tdiv (-x) y) := by
      rw [Int.neg_tdiv, neg_neg]
    rw [e, Int.tdiv_eq_ediv (by omega) (le_of_lt hy)]
    have h1 : 0 ≤ (-x) / y := Int.ediv_nonneg (by omega) (le_of_lt hy)
    have h2 : (-x) / y ≤ -x := Int.ediv_le_self y (by omega)
    constructor <;> omega

theorem intQuo_pos (x y : Int) (hy : 0 < y) :
    intQuo (wrap64 x) y = some (Int.tdiv (wrap64 x) y) := by
  unfold intQuo
  rw [if_neg (by omega), wrap64_of_inInt _ (tdiv_inInt _ _ (wrap64_inInt x) hy)]

/-- The run of `checkServerStat` never panics: it appends to the standard output
what `checkServerStat` prints, and leaves the snapshot as it was. -/
theorem checkServerStatRun_eq (impl : F64 → Int) (stat : serverStat) (stdout : List String) :
    checkServerStatRun impl stat stdout = some (stdout ++ checkServerStat impl stat, stat) := by
  have hMb : (0 : Int) < unitMb := by decide
  have hMbps : (0 : Int) < unitMbps := by decide
  rw [checkServerStat_eq]
  unfold checkServerStatRun
  simp only [intQuo_pos _ _ hMb, intQuo_pos _ _ hMbps]
  split_ifs <;> simp [bind, pure]

/-- The percentage with a zero total: the conversion of NaN (`0 / 0`) or of an
infinity (`u / 0`) to `int`, which Go leaves to the implementation. -/
theorem usagePercent_zero_total (impl : F64 → Int) (u : Int) :
    usagePercent impl u 0 = impl (if u = 0 then .nan else .inf (decide (u < 0))) := by
  unfold usagePercent
  have h0 : F64.ofInt 0 = .fin 0 0 := by decide
  rw [h0, ofInt_hundred]
  by_cases hu : u = 0
  · subst hu
    rw [h0]
    simp [F64.div, F64.mul, Round, F64.toInt]
  · unfold F64.ofInt
    rw [if_neg hu, if_neg hu]
    have hs := (roundRatio_sig u.natAbs 1 (Int.natAbs_pos.mpr hu) Nat.one_pos).1
    have hpos : 0 < (roundRatio u.natAbs 1).1 := lt_of_lt_of_le (by norm_num) hs
    by_cases hn : u < 0
    · have hm : ¬ (-((roundRatio u.natAbs 1).1 : Int) = 0) := by omega
      have hm2 : (-((roundRatio u.natAbs 1).1 : Int) < 0) := by omega
      simp [hn, F64.div, F64.mul, Round, F64.toInt, hm, hm2]
    · have hm : ¬ (((roundRatio u.natAbs 1).1 : Int) = 0) := by omega
      have hm2 : ¬ (((roundRatio u.natAbs 1).1 : Int) < 0) := by omega
      simp [hn, F64.div, F64.mul, Round, F64.toInt, hm, hm2]

/-- At most four texts are printed. -/
theorem checkServerStat_length_le (impl : F64 → Int) (stat : serverStat) :
    (checkServerStat impl stat).length ≤ 4 := by
  rw [checkServerStat_eq]
  split_ifs <;> simp

/-- The memory alert is printed exactly when the percentage exceeds 80. -/
theorem mem_alert_iff (impl : F64 → Int) (stat : serverStat) :
    (checkServerStat impl stat).filter (startsWith "Memory usage is too high: ") ≠ [] ↔
      80 < usagePercent impl stat.MemBytesUsed stat.MemBytesAvailable := by
  rw [filter_mem]
  split_ifs with h
  · simpa using h
  · simpa using h

/-- The disk alert is printed exactly when the percentage exceeds 90. -/
theorem disk_alert_iff (impl : F64 → Int) (stat : serverStat) :
    (checkServerStat impl stat).filter (startsWith "Free disk space is too low: ") ≠ [] ↔
      90 < usagePercent impl stat.DiskBytesUsed stat.DiskBytesAvailable := by
  rw [filter_disk]
  split_ifs with h
  · simpa using h
  · simpa using h

/-- The network alert is printed exactly when the percentage exceeds 90. -/
theorem net_alert_iff (impl : F64 → Int) (stat : serverStat) :
    (checkServerStat impl stat).filter (startsWith "Network bandwidth usage high: ") ≠ [] ↔
      90 < usagePercent impl stat.NetBandwidthUsed stat.NetBandwidthAvailable := by
  rw [filter_net]
  split_ifs with h
  · simpa using h
  · simpa using h

/-- Below `2 ^ 53`, exceeding 80 is monotone in the amount used. -/
theorem usagePercent_gt80_mono (impl : F64 → Int) (A u v : Int) (hA : 0 < A)
    (hA2 : A < 2 ^ 53) (hu : 0 ≤ u) (huv : u ≤ v) (hv : v < 2 ^ 53)
    (h : 80 < usagePercent impl u A) : 80 < usagePercent impl v A := by
  have h1 := usagePercent_ge_iff_int impl u A hA hA2 (by omega) (by omega) 81 (by norm_num)
    5664683906301952 7250795400066498 (by norm_num) (by norm_num) (by norm_num) (by norm_num)
    (by norm_num) (by norm_num) (by norm_num) (by norm_num) (by norm_num)
  have h2 := usagePercent_ge_iff_int impl v A hA hA2 (by omega) hv 81 (by norm_num)
    5664683906301952 7250795400066498 (by norm_num) (by norm_num) (by norm_num) (by norm_num)
    (by norm_num) (by norm_num) (by norm_num) (by norm_num) (by norm_num)
  have h3 := h1.mp h
  apply h2.mpr
  push_cast at h3 ⊢
  omega

/-- Below `2 ^ 53`, exceeding 90 is monotone in the amount used. -/
theorem usagePercent_gt90_mono (impl : F64 → Int) (A u v : Int) (hA : 0 < A)
    (hA2 : A < 2 ^ 53) (hu : 0 ≤ u) (huv : u ≤ v) (hv : v < 2 ^ 53)
    (h : 90 < usagePercent impl u A) : 90 < usagePercent impl v A := by
  have h1 := usagePercent_ge_iff_int impl u A hA hA2 (by omega) (by omega) 91 (by norm_num)
    6368371348078592 8151515325540598 (by norm_num) (by norm_num) (by norm_num) (by norm_num)
    (by norm_num) (by norm_num) (by norm_num) (by norm_num) (by norm_num)
  have h2 := usagePercent_ge_iff_int impl v A hA hA2 (by omega) hv 91 (by norm_num)
    6368371348078592 8151515325540598 (by norm_num) (by norm_num) (by norm_num) (by norm_num)
    (by norm_num) (by norm_num) (by norm_num) (by norm_num) (by norm_num)
  have h3 := h1.mp h
  apply h2.mpr
  push_cast at h3 ⊢
  omega

/-! ## The evaluator as a whole -/

set_option maxRecDepth 100000 in
/-- C11. The evaluator never errors: for every snapshot and every standard output
before the call, the run of `checkServerStat` ends without a panic, with the
texts of `checkServerStat` appended, which are at most four. With a zero total
the percentage is the conversion to `int` of NaN or of an infinity, a value
that Go leaves to the implementation and that the parameter `impl` fixes: no
division fault occurs. Examples: the zero snapshot prints nothing with the
conversion of amd64; a snapshot with negative fields and more memory used than
available prints the memory alert with 200 %. -/
theorem evaluator_never_faults (impl : F64 → Int) (stat : serverStat) (stdout : List String) :
    checkServerStatRun impl stat stdout = some (stdout ++ checkServerStat impl stat, stat) ∧
    (checkServerStat impl stat).length ≤ 4 ∧
    usagePercent impl stat.MemBytesUsed 0 =
      impl (if stat.MemBytesUsed = 0 then .nan else .inf (decide (stat.MemBytesUsed < 0))) ∧
    usagePercent impl stat.DiskBytesUsed 0 =
      impl (if stat.DiskBytesUsed = 0 then .nan else .inf (decide (stat.DiskBytesUsed < 0))) ∧
    usagePercent impl stat.NetBandwidthUsed 0 =
      impl (if stat.NetBandwidthUsed = 0 then .nan
        else .inf (decide (stat.NetBandwidthUsed < 0))) ∧
    checkServerStatRun implAmd64 serverStat.zero [] = some ([], serverStat.zero) ∧
    checkServerStatRun impl ⟨-5, 10, 20, 10, -20, -10, 5⟩ [] =
      some (["Memory usage is too high: 200% \n"], ⟨-5, 10, 20, 10, -20, -10, 5⟩) := by
  refine ⟨checkServerStatRun_eq impl stat stdout, checkServerStat_length_le impl stat,
    usagePercent_zero_total impl _, usagePercent_zero_total impl _,
    usagePercent_zero_total impl _, by decide, ?_⟩
  have h1 : usagePercent impl 20 10 = 200 := by rfl
  have h2 : usagePercent impl (-20) 10 = -200 := by rfl
  have h3 : usagePercent impl 5 (-10) = -50 := by rfl
  rw [checkServerStatRun_eq, checkServerStat_eq]
  simp only [h1, h2, h3]
  decide

set_option maxRecDepth 100000 in
/-- C12. Scenario with values just over the thresholds: the payload
`31,1000,801,1000,901,1000,901` is decoded without error and `checkServerStat`
prints exactly one line for it, "Load Average is too high: 31"; the memory
percentage is 80 and the disk and network percentages are 90, which fire no
alert. -/
theorem scenario_just_over (impl : F64 → Int) :
    parseServerStat (bytesOf "31,1000,801,1000,901,1000,901") =
      (⟨31, 1000, 801, 1000, 901, 1000, 901⟩, none) ∧
    checkServerStat impl (parseServerStat (bytesOf "31,1000,801,1000,901,1000,901")).1 =
      ["Load Average is too high: 31\n"] ∧
    usagePercent impl 801 1000 = 80 ∧ usagePercent impl 901 1000 = 90 := by
  have h : parseServerStat (bytesOf "31,1000,801,1000,901,1000,901") =
      (⟨31, 1000, 801, 1000, 901, 1000, 901⟩, none) := by decide
  refine ⟨h, ?_, by rfl, by rfl⟩
  rw [h]
  rfl

set_option maxRecDepth 100000 in
/-- C13. Scenario within bounds: the payload `5,1000,500,1000,500,1000,500` is
decoded without error and `checkServerStat` prints nothing for it. -/
theorem scenario_within_bounds (impl : F64 → Int) :
    parseServerStat (bytesOf "5,1000,500,1000,500,1000,500") =
      (⟨5, 1000, 500, 1000, 500, 1000, 500⟩, none) ∧
    checkServerStat impl (parseServerStat (bytesOf "5,1000,500,1000,500,1000,500")).1 = [] := by
  have h : parseServerStat (bytesOf "5,1000,500,1000,500,1000,500") =
      (⟨5, 1000, 500, 1000, 500, 1000, 500⟩, none) := by decide
  refine ⟨h, ?_⟩
  rw [h]
  rfl

set_option maxRecDepth 100000 in
/-- C14. The four rules are evaluated independently: what is printed for a rule
is the same for two snapshots `s` and `t` as soon as `t` is given the fields of
`s` that the rule reads (the load; the two memory fields; the two disk fields;
the two network fields), whatever its other fields are. The rules are not
exclusive: for the snapshot 31,1000,850,1000,950,1000,950 all four alerts are
printed. -/
theorem rules_independent (impl : F64 → Int) (s t : serverStat) :
    (checkServerStat impl s).filter (startsWith "Load Average is too high: ") =
      (checkServerStat impl { t with CurrentLA := s.CurrentLA }).filter
        (startsWith "Load Average is too high: ") ∧
    (checkServerStat impl s).filter (startsWith "Memory usage is too high: ") =
      (checkServerStat impl { t with MemBytesAvailable := s.MemBytesAvailable,
                                     MemBytesUsed := s.MemBytesUsed }).filter
        (startsWith "Memory usage is too high: ") ∧
    (checkServerStat impl s).filter (startsWith "Free disk space is too low: ") =
      (checkServerStat impl { t with DiskBytesAvailable := s.DiskBytesAvailable,
                                     DiskBytesUsed := s.DiskBytesUsed }).filter
        (startsWith "Free disk space is too low: ") ∧
    (checkServerStat impl s).filter (startsWith "Network bandwidth usage high: ") =
      (checkServerStat impl { t with NetBandwidthAvailable := s.NetBandwidthAvailable,
                                     NetBandwidthUsed := s.NetBandwidthUsed }).filter
        (startsWith "Network bandwidth usage high: ") ∧
    checkServerStat impl ⟨31, 1000, 850, 1000, 950, 1000, 950⟩ =
      ["Load Average is too high: 31\n", "Memory usage is too high: 85% \n",
       "Free disk space is too low: 0 Mb left\n",
       "Network bandwidth usage high: 0 Mbit/s available\n"] := by
  have h1 : usagePercent impl 850 1000 = 85 := by rfl
  have h2 : usagePercent impl 950 1000 = 95 := by rfl
  refine ⟨?_, ?_, ?_, ?_, by rw [checkServerStat_eq]; simp only [h1, h2]; decide⟩
  · rw [filter_load, filter_load]
  · rw [filter_mem, filter_mem]
  · rw [filter_disk, filter_disk]
  · rw [filter_net, filter_net]

/-- C15. Idempotence of the evaluator: two runs of `checkServerStat` on the same
snapshot, one after the other, append the same texts to the standard output,
and each leaves the snapshot unchanged. -/
theorem evaluation_repeatable (impl : F64 → Int) (stat : serverStat) (stdout : List String) :
    checkServerStatRun impl stat stdout = some (stdout ++ checkServerStat impl stat, stat) ∧
    (checkServerStatRun impl stat stdout).bind
        (fun r => checkServerStatRun impl r.2 r.1) =
      some (stdout ++ checkServerStat impl stat ++ checkServerStat impl stat, stat) := by
  refine ⟨checkServerStatRun_eq impl stat stdout, ?_⟩
  rw [checkServerStatRun_eq, Option.some_bind, checkServerStatRun_eq]

/-! ## Which texts `strconv.Atoi` accepts -/

set_option maxRecDepth 100000 in
/-- What the byte tests of `strconv` see, for every byte. -/
theorem byte_facts : ∀ c : Byte,
    (((c - 48 : Byte) > 9) ↔ ¬ isDigit c) ∧
    (isDigit c → ((c - 48 : Byte).val = c.val - 48 ∧ ¬ ((c - 48 : Byte) ≥ 10) ∧
      c ≠ 45 ∧ c ≠ 43 ∧ c.val - 48 ≤ 9)) ∧
    (¬ isDigit c → (97 ≤ lower c ∧ lower c ≤ 122) → (lower c - 97 + 10 : Byte) ≥ 10) := by
  decide

theorem le_digitsValue (ds : List Byte) (acc : Nat) : acc ≤ digitsValue ds acc := by
  induction ds generalizing acc with
  | nil => simp [digitsValue]
  | cons d ds ih =>
    have := ih (acc * 10 + (d.val - 48))
    simp only [digitsValue, List.foldl_cons] at this ⊢
    omega

theorem digitsValue_mono (ds : List Byte) (a b : Nat) (h : a ≤ b) :
    digitsValue ds a ≤ digitsValue ds b := by
  induction ds generalizing a b with
  | nil => simpa [digitsValue] using h
  | cons d ds ih =>
    simp only [digitsValue, List.foldl_cons]
    exact ih _ _ (by omega)

theorem digitsValue_lt (ds : List Byte) (acc : Nat) (hd : ∀ d ∈ ds, isDigit d) :
    digitsValue ds acc < (acc + 1) * 10 ^ ds.length := by
  induction ds generalizing acc with
  | nil => simp [digitsValue]
  | cons d ds ih =>
    have hdd := ((byte_facts d).2.1 (hd d (List.mem_cons_self _ _))).2.2.2.2
    have h := ih (acc * 10 + (d.val - 48)) (fun x hx => hd x (List.mem_cons_of_mem _ hx))
    simp only [digitsValue, List.foldl_cons, List.length_cons] at h ⊢
    calc _ < (acc * 10 + (d.val - 48) + 1) * 10 ^ ds.length := h
      _ ≤ ((acc + 1) * 10) * 10 ^ ds.length := Nat.mul_le_mul_right _ (by omega)
      _ = (acc + 1) * 10 ^ (ds.length + 1) := by rw [pow_succ]; ring

/-- The fast loop of `Atoi` succeeds exactly on texts of digits. -/
theorem atoiLoop_ok_iff (s0 ds : List Byte) (acc : Nat) :
    ((atoiLoop s0 ds (acc : Int)).2 = none ↔ ∀ d ∈ ds, isDigit d) ∧
    ((atoiLoop s0 ds (acc : Int)).2 = none →
      (atoiLoop s0 ds (acc : Int)).1 = (digitsValue ds acc : Nat)) := by
  induction ds generalizing acc with
  | nil => simp [atoiLoop, digitsValue]
  | cons d ds ih =>
    obtain ⟨f1, f2, _⟩ := byte_facts d
    by_cases hd : isDigit d
    · have hn : ¬ ((d - 48 : Byte) > 9) := fun h => (f1.mp h) hd
      have hv := (f2 hd).1
      have e : ((acc : Int) * 10 + ((d - 48 : Byte).val : Int)) =
          ((acc * 10 + (d.val - 48) : Nat) : Int) := by rw [hv]; push_cast; ring
      simp only [atoiLoop, hn, if_false, e]
      obtain ⟨i1, i2⟩ := ih (acc * 10 + (d.val - 48))
      constructor
      · rw [i1]
        constructor
        · intro h x hx
          rcases List.mem_cons.mp hx with rfl | hx'
          · exact hd
          · exact h x hx'
        · intro h x hx
          exact h x (List.mem_cons_of_mem _ hx)
      · intro h
        rw [i2 h]
        simp [digitsValue]
    · have hn : ((d - 48 : Byte) > 9) := f1.mpr hd
      simp only [atoiLoop, hn, if_true]
      constructor
      · constructor
        · intro h; simp at h
        · intro h; exact absurd (h d (List.mem_cons_self _ _)) hd
      · intro h; simp at h

/-- The loop of `ParseUint` succeeds exactly on texts of digits whose value, from
the accumulator `n`, is below `2 ^ 64`; a range error comes with the largest
`uint64`. -/
theorem parseUintLoop_spec (s0 ds : List Byte) (n : Nat) (hn : n < 2 ^ 64) :
    ((parseUintLoop s0 ds n).2 = none ↔
      (∀ d ∈ ds, isDigit d) ∧ digitsValue ds n < 2 ^ 64) ∧
    ((parseUintLoop s0 ds n).2 = none → (parseUintLoop s0 ds n).1 = digitsValue ds n) ∧
    (∀ e, (parseUintLoop s0 ds n).2 = some e → e.Err = .ErrRange →
      (parseUintLoop s0 ds n).1 = maxUint64) := by
  have hmax : maxUint64 = 18446744073709551615 := by decide
  induction ds generalizing n with
  | nil =>
    refine ⟨?_, ?_, ?_⟩
    · simp only [parseUintLoop, digitsValue, List.foldl_nil, List.not_mem_nil, false_implies,
        implies_true, true_and, true_iff]
      exact hn
    · simp [parseUintLoop, digitsValue]
    · intro e h; simp [parseUintLoop] at h
  | cons c rest ih =>
    obtain ⟨f1, f2, f3⟩ := byte_facts c
    by_cases hd : isDigit c
    · have hd' : (48 : Byte) ≤ c ∧ c ≤ 57 := hd
      obtain ⟨hv, hlt10, _, _, hle9⟩ := f2 hd
      have hval : digitsValue (c :: rest) n = digitsValue rest (n * 10 + (c.val - 48)) := by
        simp [digitsValue]
      have hge := le_digitsValue rest (n * 10 + (c.val - 48))
      have hall : (∀ d ∈ c :: rest, isDigit d) ↔ (∀ d ∈ rest, isDigit d) := by
        constructor
        · intro h x hx; exact h x (List.mem_cons_of_mem _ hx)
        · intro h x hx
          rcases List.mem_cons.mp hx with rfl | hx'
          · exact hd
          · exact h x hx'
      by_cases hcut : n ≥ maxUint64 / 10 + 1
      · have hbig : ¬ (digitsValue (c :: rest) n < 2 ^ 64) := by
          rw [hval]; rw [hmax] at hcut; norm_num at hcut ⊢; omega
        simp only [parseUintLoop, hd', and_self, if_true, hlt10, if_false, hcut]
        refine ⟨⟨fun h => by simp at h, fun h => absurd h.2 hbig⟩, fun h => by simp at h,
          fun _ _ _ => trivial⟩
      · by_cases hov : n * 10 + (c.val - 48) < 2 ^ 64
        · have hmod : (n * 10 + (c - 48 : Byte).val) % 2 ^ 64 = n * 10 + (c.val - 48) := by
            rw [hv]; exact Nat.mod_eq_of_lt hov
          have hc2 : ¬ (n * 10 + (c.val - 48) < n * 10 ∨ n * 10 + (c.val - 48) > maxUint64) := by
            rw [hmax]; norm_num at hov ⊢; omega
          simp only [parseUintLoop, hd', and_self, if_true, hlt10, if_false, hcut, hmod, hc2]
          rw [hval, hall]
          exact ih _ hov
        · have hmod : (n * 10 + (c - 48 : Byte).val) % 2 ^ 64 =
              n * 10 + (c.val - 48) - 2 ^ 64 := by
            rw [hv]
            rw [hmax] at hcut
            norm_num at hcut hov ⊢
            omega
          have hc2 : (n * 10 + (c.val - 48) - 2 ^ 64 < n * 10 ∨
              n * 10 + (c.val - 48) - 2 ^ 64 > maxUint64) := by
            left; norm_num at hov ⊢; omega
          have hbig : ¬ (digitsValue (c :: rest) n < 2 ^ 64) := by
            rw [hval]; omega
          simp only [parseUintLoop, hd', and_self, if_true, hlt10, if_false, hcut, hmod, hc2]
          refine ⟨⟨fun h => by simp at h, fun h => absurd h.2 hbig⟩, fun h => by simp at h,
            fun _ _ _ => trivial⟩
    · have hd' : ¬ ((48 : Byte) ≤ c ∧ c ≤ 57) := hd
      have hnot : ¬ (∀ d ∈ c :: rest, isDigit d) := fun h => hd (h c (List.mem_cons_self _ _))
      by_cases hl : 97 ≤ lower c ∧ lower c ≤ 122
      · have hge := f3 hd hl
        simp only [parseUintLoop, hd', if_false, hl, and_self, if_true, hge]
        refine ⟨⟨fun h => by simp at h, fun h => absurd h.1 hnot⟩, fun h => by simp at h, ?_⟩
        intro e he hr
        simp only [Option.some.injEq] at he
        subst he
        simp [syntaxError] at hr
      · simp only [parseUintLoop, hd', if_false, hl]
        refine ⟨⟨fun h => by simp at h, fun h => absurd h.1 hnot⟩, fun h => by simp at h, ?_⟩
        intro e he hr
        simp only [Option.some.injEq] at he
        subst he
        simp [syntaxError] at hr

/-- What `ParseUint` returns. -/
theorem ParseUint_spec (s : List Byte) :
    ((ParseUint s).2 = none ↔ s ≠ [] ∧ (∀ d ∈ s, isDigit d) ∧ digitsValue s 0 < 2 ^ 64) ∧
    ((ParseUint s).2 = none → (ParseUint s).1 = digitsValue s 0) ∧
    (∀ e, (ParseUint s).2 = some e → e.Err = .ErrRange → (ParseUint s).1 = maxUint64) := by
  unfold ParseUint
  by_cases hs : s = []
  · subst hs
    simp [syntaxError]
  · rw [if_neg hs]
    obtain ⟨h1, h2, h3⟩ := parseUintLoop_spec s s 0 (by norm_num)
    refine ⟨?_, h2, h3⟩
    rw [h1]
    constructor
    · intro h; exact ⟨hs, h⟩
    · intro h; exact h.2

/-- `ParseInt` succeeds exactly on the texts of `validIntText`. -/
theorem ParseInt_ok_iff (s : List Byte) : (ParseInt s).2 = none ↔ validIntText s := by
  cases s with
  | nil => simp [ParseInt, validIntText]
  | cons c rest =>
    have hmax : maxUint64 = 18446744073709551615 := by decide
    have hv : validIntText (c :: rest) ↔
        ((if c = 43 then rest else if c = 45 then rest else c :: rest) ≠ [] ∧
          (∀ d ∈ (if c = 43 then rest else if c = 45 then rest else c :: rest), isDigit d) ∧
          (if (if c = 43 then false else if c = 45 then true else false) = true then
            digitsValue (if c = 43 then rest else if c = 45 then rest else c :: rest) 0 ≤ 2 ^ 63
           else
            digitsValue (if c = 43 then rest else if c = 45 then rest else c :: rest) 0
              ≤ 2 ^ 63 - 1)) := by
      by_cases h43 : c = 43
      · subst h43; simp [validIntText]
      · by_cases h45 : c = 45
        · subst h45; simp [validIntText]
        · simp [validIntText, h43, h45]
    rw [hv]
    unfold ParseInt
    simp only
    generalize (if c = 43 then rest else if c = 45 then rest else c :: rest) = digits
    generalize (if c = 43 then false else if c = 45 then true else false) = neg
    obtain ⟨h1, h2, h3⟩ := ParseUint_spec digits
    rcases hp : ParseUint digits with ⟨un, _ | ⟨f, num, _ | _⟩⟩
    · rw [hp] at h1 h2
      have hun : un = digitsValue digits 0 := h2 rfl
      have hok := h1.mp rfl
      simp only
      cases neg
      · simp only [Bool.not_false, true_and, Bool.false_eq_true, false_and, if_false]
        by_cases hc : un ≥ 2 ^ 63
        · rw [if_pos hc]
          constructor
          · intro h; simp at h
          · intro h; rw [← hun] at h; omega
        · rw [if_neg hc]
          constructor
          · intro _; refine ⟨hok.1, hok.2.1, ?_⟩; rw [← hun]; omega
          · intro _; rfl
      · simp only [Bool.not_true, Bool.false_eq_true, false_and, if_false, true_and, if_true]
        by_cases hc : un > 2 ^ 63
        · rw [if_pos hc]
          constructor
          · intro h; simp at h
          · intro h; rw [← hun] at h; omega
        · rw [if_neg hc]
          constructor
          · intro _; refine ⟨hok.1, hok.2.1, ?_⟩; rw [← hun]; omega
          · intro _; rfl
    · rw [hp] at h1
      have hno : ¬ (digits ≠ [] ∧ (∀ d ∈ digits, isDigit d) ∧ digitsValue digits 0 < 2 ^ 64) :=
        fun h => by have := h1.mpr h; simp at this
      simp only
      constructor
      · intro h; simp at h
      · intro h
        exfalso
        apply hno
        refine ⟨h.1, h.2.1, ?_⟩
        have := h.2.2
        split_ifs at this <;> omega
    · rw [hp] at h1 h3
      have hun : un = maxUint64 := h3 _ rfl rfl
      have hno : ¬ (digits ≠ [] ∧ (∀ d ∈ digits, isDigit d) ∧ digitsValue digits 0 < 2 ^ 64) :=
        fun h => by have := h1.mpr h; simp at this
      have hrhs : ¬ (digits ≠ [] ∧ (∀ d ∈ digits, isDigit d) ∧
          (if neg = true then digitsValue digits 0 ≤ 2 ^ 63
            else digitsValue digits 0 ≤ 2 ^ 63 - 1)) := by
        intro h
        apply hno
        refine ⟨h.1, h.2.1, ?_⟩
        have := h.2.2
        split_ifs at this <;> omega
      simp only [hun, hmax]
      constructor
      · intro h
        exfalso
        cases neg <;> simp at h
      · intro h; exact absurd h hrhs

/-- The fast path of `Atoi` on a text of digits without sign. -/
theorem atoi_fast_digits (s0 ds : List Byte) (hlen : ds.length < 19) :
    ((atoiLoop s0 ds 0).2 = none ↔
      ((∀ d ∈ ds, isDigit d) ∧ digitsValue ds 0 ≤ 2 ^ 63 - 1)) := by
  obtain ⟨h1, _⟩ := atoiLoop_ok_iff s0 ds 0
  simp only [Nat.cast_zero] at h1
  rw [h1]
  constructor
  · intro h
    refine ⟨h, ?_⟩
    have hlt := digitsValue_lt ds 0 h
    have hpow : 10 ^ ds.length ≤ 10 ^ 18 := Nat.pow_le_pow_right (by decide) (by omega)
    have : (10 : Nat) ^ 18 ≤ 2 ^ 63 - 1 := by decide
    omega
  · intro h; exact h.1

/-- `Atoi` succeeds exactly on the texts of `validIntText`. -/
theorem Atoi_ok_iff (s : List Byte) : (Atoi s).2 = none ↔ validIntText s := by
  cases s with
  | nil => simp [Atoi, ParseInt, validIntText]
  | cons c rest =>
    unfold Atoi
    simp only
    by_cases hlen : (c :: rest).length < 19
    · rw [if_pos hlen]
      have hrl : rest.length < 19 := by simp only [List.length_cons] at hlen; omega
      by_cases h45 : c = 45
      · subst h45
        by_cases hr : rest = []
        · subst hr; simp [validIntText]
        · have hr1 : ¬ rest.length < 1 := by
            intro h; apply hr; exact List.length_eq_zero.mp (by omega)
          have hf := atoi_fast_digits (45 :: rest) rest hrl
          simp only [true_or, decide_True, true_and, if_true, hr1, decide_False,
            Bool.false_eq_true, if_false]
          rcases hl : atoiLoop (45 :: rest) rest 0 with ⟨v, _ | e⟩
          · rw [hl] at hf
            have := hf.mp rfl
            simp only [validIntText, if_true]
            constructor
            · intro _; exact ⟨hr, this.1, by omega⟩
            · intro _; first | rfl | trivial
          · rw [hl] at hf
            simp only [validIntText, if_true]
            constructor
            · intro h; simp at h
            · intro h
              exfalso
              have hlt := digitsValue_lt rest 0 h.2.1
              have hpow : 10 ^ rest.length ≤ 10 ^ 18 :=
                Nat.pow_le_pow_right (by decide) (by omega)
              have h18 : (10 : Nat) ^ 18 ≤ 2 ^ 63 - 1 := by decide
              have := hf.mpr ⟨h.2.1, by omega⟩
              simp at this
      · by_cases h43 : c = 43
        · subst h43
          by_cases hr : rest = []
          · subst hr; simp [validIntText]
          · have hr1 : ¬ rest.length < 1 := by
              intro h; apply hr; exact List.length_eq_zero.mp (by omega)
            have hf := atoi_fast_digits (43 :: rest) rest hrl
            simp only [or_true, decide_True, true_and, if_true, hr1, decide_False,
              Bool.false_eq_true, if_false]
            rcases hl : atoiLoop (43 :: rest) rest 0 with ⟨v, _ | e⟩
            · rw [hl] at hf
              have := hf.mp rfl
              simp only [validIntText, h45, if_false, if_true]
              constructor
              · intro _; exact ⟨hr, this.1, this.2⟩
              · intro _; first | rfl | trivial
            · rw [hl] at hf
              simp only [validIntText, h45, if_false, if_true]
              constructor
              · intro h; simp at h
              · intro h
                exfalso
                have := hf.mpr ⟨h.2.1, h.2.2⟩
                simp at this
        · have hf := atoi_fast_digits (c :: rest) (c :: rest) hlen
          simp only [h45, h43, or_self, decide_False, Bool.false_eq_true, false_and,
            if_false]
          rcases hl : atoiLoop (c :: rest) (c :: rest) 0 with ⟨v, _ | e⟩
          · rw [hl] at hf
            have := hf.mp rfl
            simp only [validIntText, h45, h43, if_false]
            constructor
            · intro _; exact this
            · intro _; first | rfl | trivial
          · rw [hl] at hf
            simp only [validIntText, h45, h43, if_false]
            constructor
            · intro h; simp at h
            · intro h
              exfalso
              have := hf.mpr h
              simp at this
    · rw [if_neg hlen]
      have hp := ParseInt_ok_iff (c :: rest)
      rcases hl : ParseInt (c :: rest) with ⟨i, _ | e⟩
      · rw [hl] at hp
        simp only
        first | exact hp | exact (by simpa using hp)
      · rw [hl] at hp
        simp only
        rw [← hp]
        simp

/-- With seven fields, `parseServerStat` succeeds exactly when `Atoi` succeeds on
each of them. -/
theorem parse_ok_iff_fields (input p0 p1 p2 p3 p4 p5 p6 : List Byte)
    (hs : Split input 44 = [p0, p1, p2, p3, p4, p5, p6]) :
    (parseServerStat input).2 = none ↔
      ((Atoi p0).2 = none ∧ (Atoi p1).2 = none ∧ (Atoi p2).2 = none ∧ (Atoi p3).2 = none ∧
        (Atoi p4).2 = none ∧ (Atoi p5).2 = none ∧ (Atoi p6).2 = none) := by
  unfold parseServerStat
  rw [hs]
  simp only
  rcases Atoi p0 with ⟨v0, _ | e0⟩ <;> rcases Atoi p1 with ⟨v1, _ | e1⟩ <;>
    rcases Atoi p2 with ⟨v2, _ | e2⟩ <;> rcases Atoi p3 with ⟨v3, _ | e3⟩ <;>
    rcases Atoi p4 with ⟨v4, _ | e4⟩ <;> rcases Atoi p5 with ⟨v5, _ | e5⟩ <;>
    rcases Atoi p6 with ⟨v6, _ | e6⟩ <;> simp

/-- The decoder succeeds exactly on six commas between seven integer texts. -/
theorem parse_ok_iff_valid (input : List Byte) :
    (parseServerStat input).2 = none ↔
      (input.count 44 = 6 ∧ ∀ p ∈ Split input 44, validIntText p) := by
  have hlen := Split_length input 44
  by_cases hc : input.count 44 = 6
  · have h7 : (Split input 44).length = 7 := by rw [hlen, hc]
    obtain ⟨p0, p1, p2, p3, p4, p5, p6, hs⟩ := length_eq_seven _ h7
    rw [parse_ok_iff_fields input p0 p1 p2 p3 p4 p5 p6 hs, hs]
    simp only [Atoi_ok_iff, hc, true_and, List.mem_cons, List.mem_singleton, forall_eq_or_imp,
      forall_eq, List.not_mem_nil, false_implies, implies_true, and_true, false_or]
  · have h7 : (Split input 44).length ≠ 7 := by rw [hlen]; omega
    rw [parse_wrong_count input h7]
    simp [hc]

/-! ## The acceptance condition of the decoder -/

set_option maxRecDepth 100000 in
/-- C16. `parseServerStat` succeeds (the error is `nil`) exactly when the input
holds six commas and each of the seven fields is an optional single `+` or `-`
followed by one or more ASCII decimal digits with a value of the 64-bit signed
range; it fails with a field error exactly when the input holds six commas and
some field is not such a text. An empty field, a field with a leading or a
trailing space, a payload ending in a newline and a field 9223372036854775808
are rejected with a field error, and signs and -9223372036854775808 are
accepted. -/
theorem decoder_acceptance (input : List Byte) :
    ((parseServerStat input).2 = none ↔
      (input.count 44 = 6 ∧ ∀ p ∈ Split input 44, validIntText p)) ∧
    ((∃ text e, (parseServerStat input).2 = some (.withErr text e)) ↔
      (input.count 44 = 6 ∧ ∃ p ∈ Split input 44, ¬ validIntText p)) ∧
    (parseServerStat (bytesOf "7,,1536,10240,9216,1000000,950000")).2 =
      some (.withErr "error parsing MemBytesAvailable: " (syntaxError "Atoi" [])) ∧
    (parseServerStat (bytesOf " 7,2048,1536,10240,9216,1000000,950000")).2 =
      some (.withErr "error parsing CurrentLA: " (syntaxError "Atoi" (bytesOf " 7"))) ∧
    (parseServerStat (bytesOf "7,2048 ,1536,10240,9216,1000000,950000")).2 =
      some (.withErr "error parsing MemBytesAvailable: "
        (syntaxError "Atoi" (bytesOf "2048 "))) ∧
    (parseServerStat (bytesOf "7,2048,1536,10240,9216,1000000,950000\n")).2 =
      some (.withErr "error parsing NetBandwidthAvailable: "
        (syntaxError "Atoi" (bytesOf "950000\n"))) ∧
    (parseServerStat (bytesOf "7,2048,1536,10240,9223372036854775808,1000000,950000")).2 =
      some (.withErr "error parsing DiskBytesUsed: "
        (rangeError "Atoi" (bytesOf "9223372036854775808"))) ∧
    parseServerStat (bytesOf "+7,-2048,1536,10240,-9223372036854775808,1000000,950000") =
      (⟨7, -2048, 1536, 10240, -9223372036854775808, 1000000, 950000⟩, none) := by
  have hok := parse_ok_iff_valid input
  refine ⟨hok, ?_, by decide, by decide, by decide, by decide, by decide, by decide⟩
  have hlen := Split_length input 44
  constructor
  · rintro ⟨text, e, he⟩
    by_cases hc : input.count 44 = 6
    · refine ⟨hc, ?_⟩
      by_contra hall
      have hall2 : ∀ p ∈ Split input 44, validIntText p := by
        intro p hp
        by_contra hnp
        exact hall ⟨p, hp, hnp⟩
      have := hok.mpr ⟨hc, hall2⟩
      rw [he] at this
      exact absurd this (by simp)
    · have h7 : (Split input 44).length ≠ 7 := by rw [hlen]; omega
      rw [parse_wrong_count input h7] at he
      exact absurd he (by simp)
  · rintro ⟨hc, p, hp, hnp⟩
    have h7 : (Split input 44).length = 7 := by rw [hlen, hc]
    rcases parse_seven_fields input h7 with h | h
    · exact absurd ((hok.mp h).2 p hp) hnp
    · exact h

/-! ## Monotonicity and the guarantee of the disk alert -/

/-- Where the percentage fits an `int`, the alerts are monotone in the amount
used: for an available amount `0 < A < 2 ^ 53` and used amounts
`0 ≤ u ≤ v < 2 ^ 53`, whatever the other fields of the two snapshots hold, if
`checkServerStat` prints the memory alert for `(A, u)` then it prints it for
`(A, v)`, and the same holds for the disk alert and for the network alert. -/
theorem alerts_monotone_in_range (impl : F64 → Int) (s t : serverStat) (A u v : Int)
    (hA : 0 < A) (hA2 : A < 2 ^ 53) (hu : 0 ≤ u) (huv : u ≤ v) (hv : v < 2 ^ 53) :
    ((checkServerStat impl { s with MemBytesAvailable := A, MemBytesUsed := u }).filter
        (startsWith "Memory usage is too high: ") ≠ [] →
      (checkServerStat impl { t with MemBytesAvailable := A, MemBytesUsed := v }).filter
        (startsWith "Memory usage is too high: ") ≠ []) ∧
    ((checkServerStat impl { s with DiskBytesAvailable := A, DiskBytesUsed := u }).filter
        (startsWith "Free disk space is too low: ") ≠ [] →
      (checkServerStat impl { t with DiskBytesAvailable := A, DiskBytesUsed := v }).filter
        (startsWith "Free disk space is too low: ") ≠ []) ∧
    ((checkServerStat impl { s with NetBandwidthAvailable := A, NetBandwidthUsed := u }).filter
        (startsWith "Network bandwidth usage high: ") ≠ [] →
      (checkServerStat impl { t with NetBandwidthAvailable := A, NetBandwidthUsed := v }).filter
        (startsWith "Network bandwidth usage high: ") ≠ []) := by
  refine ⟨?_, ?_, ?_⟩
  · rw [mem_alert_iff, mem_alert_iff]
    exact usagePercent_gt80_mono impl A u v hA hA2 hu huv hv
  · rw [disk_alert_iff, disk_alert_iff]
    exact usagePercent_gt90_mono impl A u v hA hA2 hu huv hv
  · rw [net_alert_iff, net_alert_iff]
    exact usagePercent_gt90_mono impl A u v hA hA2 hu huv hv

set_option maxRecDepth 100000 in
/-- C17, at the snapshots with 1 byte (or bit/s) available: with 1 used the
percentage is 100 and the alert of each of the three rules is printed; with
`2 ^ 62` used, `0 ≤ 1 ≤ 2 ^ 62`, the usage exceeds the threshold all the more
(the exact percentage is above 80 and above 90), but the `float64` percentage,
about `4.6e20`, does not fit an `int`: the conversion of amd64 gives the
smallest `int` and none of the three alerts is printed. The alert disappears
although the usage has grown. -/
theorem alerts_vanish_on_overflow :
    ((0 : Int) < 1 ∧ (0 : Int) ≤ 1 ∧ (1 : Int) ≤ 2 ^ 62 ∧ InInt (2 ^ 62)) ∧
    (80 < exactPercent (2 ^ 62) 1 ∧ 90 < exactPercent (2 ^ 62) 1 ∧
      usagePercent implAmd64 1 1 = 100 ∧ usagePercent implAmd64 (2 ^ 62) 1 = minInt) ∧
    ((checkServerStat implAmd64 ⟨0, 1, 1, 1, 0, 1, 0⟩).filter
        (startsWith "Memory usage is too high: ") = ["Memory usage is too high: 100% \n"] ∧
      (checkServerStat implAmd64 ⟨0, 1, 2 ^ 62, 1, 0, 1, 0⟩).filter
        (startsWith "Memory usage is too high: ") = []) ∧
    ((checkServerStat implAmd64 ⟨0, 1, 0, 1, 1, 1, 0⟩).filter
        (startsWith "Free disk space is too low: ") =
        ["Free disk space is too low: 0 Mb left\n"] ∧
      (checkServerStat implAmd64 ⟨0, 1, 0, 1, 2 ^ 62, 1, 0⟩).filter
        (startsWith "Free disk space is too low: ") = []) ∧
    ((checkServerStat implAmd64 ⟨0, 1, 0, 1, 0, 1, 1⟩).filter
        (startsWith "Network bandwidth usage high: ") =
        ["Network bandwidth usage high: 0 Mbit/s available\n"] ∧
      (checkServerStat implAmd64 ⟨0, 1, 0, 1, 0, 1, 2 ^ 62⟩).filter
        (startsWith "Network bandwidth usage high: ") = []) := by
  decide

set_option maxRecDepth 100000 in
/-- C18, as stated, fails: with a disk of 173215370283621 bytes of which
156759910106677 are used (`0 ≤ used ≤ available`), the disk alert is printed,
but `200 * (available - used) = 19 * available + 1`. -/
theorem disk_alert_guarantee_counterexample :
    (0 : Int) < 173215370283621 ∧ (0 : Int) ≤ 156759910106677 ∧
    (156759910106677 : Int) ≤ 173215370283621 ∧
    (checkServerStat implAmd64 ⟨0, 1, 0, 173215370283621, 156759910106677, 1, 0⟩).filter
      (startsWith "Free disk space is too low: ") =
      ["Free disk space is too low: 15693149 Mb left\n"] ∧
    ¬ ((200 : Int) * (173215370283621 - 156759910106677) ≤ 19 * 173215370283621) ∧
    (200 : Int) * (173215370283621 - 156759910106677) = 19 * 173215370283621 + 1 := by
  decide

/-- C18, amended. For every snapshot with `0 < DiskBytesAvailable` in the range
of `int` and `0 ≤ DiskBytesUsed ≤ DiskBytesAvailable` for which `checkServerStat`
prints the disk alert: the line is "Free disk space is too low: F Mb left" with
`F` non-negative and `F * 1048576 ≤ DiskBytesAvailable - DiskBytesUsed <
(F + 1) * 1048576`; and when `DiskBytesAvailable ≤ 173215370283480`, the free
space satisfies `200 * (DiskBytesAvailable - DiskBytesUsed) ≤ 19 *
DiskBytesAvailable`. -/
theorem disk_alert_guarantee_bounded (impl : F64 → Int) (stat : serverStat)
    (ha : 0 < stat.DiskBytesAvailable) (ha2 : stat.DiskBytesAvailable ≤ maxInt)
    (hu : 0 ≤ stat.DiskBytesUsed) (hua : stat.DiskBytesUsed ≤ stat.DiskBytesAvailable)
    (hemit : (checkServerStat impl stat).filter
      (startsWith "Free disk space is too low: ") ≠ []) :
    (∃ F : Int,
      (checkServerStat impl stat).filter (startsWith "Free disk space is too low: ") =
        ["Free disk space is too low: " ++ fmtInt F ++ " Mb left\n"] ∧
      0 ≤ F ∧ F * 1048576 ≤ stat.DiskBytesAvailable - stat.DiskBytesUsed ∧
      stat.DiskBytesAvailable - stat.DiskBytesUsed < (F + 1) * 1048576) ∧
    (stat.DiskBytesAvailable ≤ 173215370283480 →
      200 * (stat.DiskBytesAvailable - stat.DiskBytesUsed) ≤ 19 * stat.DiskBytesAvailable) := by
  have hgt := (disk_alert_iff impl stat).mp hemit
  have hm : unitMb = 1048576 := by decide
  have hw : wrap64 (stat.DiskBytesAvailable - stat.DiskBytesUsed) =
      stat.DiskBytesAvailable - stat.DiskBytesUsed := by
    apply wrap64_of_inInt
    unfold InInt minInt maxInt
    unfold maxInt at ha2
    constructor <;> omega
  constructor
  · refine ⟨Int.tdiv (stat.DiskBytesAvailable - stat.DiskBytesUsed) 1048576, ?_, ?_⟩
    · rw [filter_disk, if_pos hgt, hw, hm]
    · rw [Int.tdiv_eq_ediv (by omega) (by norm_num)]
      omega
  · intro hb
    have h1 := (usagePercent_gt90_iff impl stat.DiskBytesUsed stat.DiskBytesAvailable ha hb
      (by omega) (by omega)).mp hgt
    have h2 := (exactPercent_ge_iff stat.DiskBytesUsed stat.DiskBytesAvailable 91 ha
      (by norm_num)).mp h1
    omega

set_option maxRecDepth 100000 in
/-- Witness of C18, amended: a disk of 1048576000 bytes of which 996147200 are
used (95 %); the alert reports 50 Mb. -/
theorem disk_alert_guarantee_bounded_witness :
    ((0 : Int) < 1048576000 ∧ (1048576000 : Int) ≤ maxInt ∧ (0 : Int) ≤ 996147200 ∧
      (996147200 : Int) ≤ 1048576000 ∧
      (checkServerStat implAmd64 ⟨0, 1, 0, 1048576000, 996147200, 1, 0⟩).filter
        (startsWith "Free disk space is too low: ") =
        ["Free disk space is too low: 50 Mb left\n"]) ∧
    ((∃ F : Int,
      (checkServerStat implAmd64 ⟨0, 1, 0, 1048576000, 996147200, 1, 0⟩).filter
          (startsWith "Free disk space is too low: ") =
        ["Free disk space is too low: " ++ fmtInt F ++ " Mb left\n"] ∧
      0 ≤ F ∧ F * 1048576 ≤ (1048576000 : Int) - 996147200 ∧
      (1048576000 : Int) - 996147200 < (F + 1) * 1048576) ∧
    ((1048576000 : Int) ≤ 173215370283480 →
      (200 : Int) * (1048576000 - 996147200) ≤ 19 * 1048576000)) :=
  ⟨by decide,
    disk_alert_guarantee_bounded implAmd64 ⟨0, 1, 0, 1048576000, 996147200, 1, 0⟩ (by decide)
      (by decide) (by decide) (by decide) (by decide)⟩

end GoServStat
